import Mathlib

/-!
Verification of the KompGen loader (`cmscontrib/loaders/kompgen.py`).

We shallowly embed the loader's data model and operations:

* Python/JSON values are modelled by `KG.PyVal` (ints and floats carried as
  exact rationals; `datetime.utcfromtimestamp` and `timedelta(seconds=...)`
  results are carried as tagged rationals, since the loader never does
  arithmetic on them).
* A parsed JSON object (task/contest descriptor, user record) is an
  association list `KG.Config`; `dict.get(k, d)` is `KG.cfgGet`, `d[k]`
  (which raises `KeyError`) is `KG.cfgIndex`.
* The filesystem is a record `KG.Fs` of `os.path.isfile`, `os.path.exists`
  and `os.listdir`.
* The blob store (`FileCacher.put_file_from_path`) is a function from path
  to digest (content-addressed for a fixed directory state); every call is
  additionally recorded in a trace of `KG.FsEvent`s, as is every
  `make_executable` (chmod) call.
* A raised `KGLoaderException` is an `Except.error` carrying a structured
  `KG.KGError`; the constructor arguments carry exactly the data that the
  Python code interpolates into the exception message.
-/

namespace KG

/-- Python values as produced by `json.load`, plus the two datetime-ish
types the loader creates.  Numbers are exact rationals (the loader performs
no float arithmetic, so this is faithful for every operation it does). -/
inductive PyVal where
  | vNone
  | vBool (b : Bool)
  | vInt (n : Int)
  | vFloat (q : Rat)
  | vStr (s : String)
  | vList (xs : List PyVal)
  | vDatetime (epochSeconds : Rat)
  | vTimedelta (seconds : Rat)

/-- Python truthiness (`bool(v)`): `None`, `False`, zero, empty string and
empty list are falsy; a `datetime` is always truthy; a zero `timedelta` is
falsy. -/
def PyVal.truthy : PyVal → Bool
  | .vNone => false
  | .vBool b => b
  | .vInt n => n != 0
  | .vFloat q => q != 0
  | .vStr s => s != ""
  | .vList xs => !xs.isEmpty
  | .vDatetime _ => true
  | .vTimedelta q => q != 0

/-- `isinstance(v, (int, float))`.  Note that in Python `bool` is a subclass
of `int`, so booleans count as numbers. -/
def PyVal.isNumber : PyVal → Bool
  | .vInt _ => true
  | .vFloat _ => true
  | .vBool _ => true
  | _ => false

/-- The rational value of a Python number (`True`/`False` count as 1/0). -/
def PyVal.asRat : PyVal → Rat
  | .vInt n => (n : Rat)
  | .vFloat q => q
  | .vBool b => if b then 1 else 0
  | _ => 0

/-- Python `str(v)` / f-string interpolation.  Exact for strings, `None`,
booleans and ints — the only values the loader ever interpolates in the
configurations we reason about; the remaining cases are best-effort
renderings (they only ever flow into trace descriptions). -/
def PyVal.pyStr : PyVal → String
  | .vStr s => s
  | .vNone => "None"
  | .vBool true => "True"
  | .vBool false => "False"
  | .vInt n => toString n
  | .vFloat q => toString q
  | .vList _ => "[...]"
  | .vDatetime q => "datetime<" ++ toString q ++ ">"
  | .vTimedelta q => "timedelta<" ++ toString q ++ ">"

/-- `v == "lit"` in Python: a str only ever equals a str. -/
def PyVal.eqStr (v : PyVal) (s : String) : Bool :=
  match v with
  | .vStr t => t = s
  | _ => false

/-- Python iteration `for x in v`: lists yield their elements, strings yield
their characters (as 1-character strings); other values the loader could
meet here (`None`, numbers) raise `TypeError`. -/
def PyVal.pyIter : PyVal → Option (List PyVal)
  | .vList xs => some xs
  | .vStr s => some (s.data.map (fun c => .vStr (String.mk [c])))
  | _ => none

/-- A parsed JSON object: association list from key to value. -/
abbrev Config := List (String × PyVal)

/-- `d.get(k, default)`. -/
def cfgGet (cfg : Config) (k : String) (d : PyVal) : PyVal :=
  match cfg.lookup k with
  | some v => v
  | none => d

/-- Structured stand-ins for the exceptions the loader raises
(`KGLoaderException`, `KeyError`, `TypeError`, `ValueError`); each
constructor carries the data interpolated into the Python message. -/
inductive KGError where
  | invalidName
  | missingStatement (path : String)
  | missingAttachment (path : String)
  | duplicateAttachment (name : String)
  | unsupportedTaskType (t : String)
  | unrecognizedFile (f : String)
  | badIo (stems : List String)
  | emptyTests
  | unknownUser (username : String)
  | keyError (k : String)
  | typeError
  | valueError

/-- `d[k]`, raising `KeyError` when the key is missing. -/
def cfgIndex (cfg : Config) (k : String) : Except KGError PyVal :=
  match cfg.lookup k with
  | some v => .ok v
  | none => .error (.keyError k)

/-- `Except.ok`-ness test, used to keep success hypotheses decidable. -/
def exceptOk : Except KGError α → Bool
  | .ok _ => true
  | .error _ => false

/-- Extract a success value (with a default for the error case). -/
def getOkD (e : Except KGError α) (d : α) : α :=
  match e with
  | .ok v => v
  | .error _ => d

/-! ### Path and filename helpers

Implemented over `List Char` so that every operation reduces in the kernel.
They model the posix behaviour of `os.path.join`, `os.path.basename` and
`os.path.splitext` for the relative path fragments the loader builds. -/

/-- `os.path.join(a, b)` for a non-absolute, non-empty `b` (the only way the
loader calls it). -/
def joinPath (a b : String) : String := a ++ "/" ++ b

/-- Characters after the last `/`. -/
def basenameChars (cs : List Char) : List Char :=
  ((cs.reverse.takeWhile (fun c => c ≠ '/')).reverse)

/-- `os.path.basename`. -/
def basename (s : String) : String := String.mk (basenameChars s.data)

/-- `os.path.splitext` on a slash-free name: split at the last dot, unless
every character before that dot is itself a dot (so `.in` has no
extension). -/
def splitextChars (cs : List Char) : List Char × List Char :=
  let r := cs.reverse
  let extR := r.takeWhile (fun c => c ≠ '.')
  if extR.length = r.length then (cs, [])
  else
    let i := cs.length - extR.length - 1
    if (cs.take i).all (fun c => c = '.') then (cs, [])
    else (cs.take i, cs.drop i)

/-- `os.path.splitext` (for the slash-free names the loader feeds it). -/
def splitext (s : String) : String × String :=
  ((String.mk (splitextChars s.data).1), (String.mk (splitextChars s.data).2))

/-- Code-point comparison of char lists: Python's `<=` on strings. -/
def charListLe : List Char → List Char → Bool
  | [], _ => true
  | _ :: _, [] => false
  | a :: as, b :: bs =>
    if a.toNat < b.toNat then true
    else if b.toNat < a.toNat then false
    else charListLe as bs

/-- Python's `<=` on strings (code-point lexicographic). -/
def strLe (a b : String) : Bool := charListLe a.data b.data

/-- Insert into a sorted list (helper for `sortBy`). -/
def insortBy (le : α → α → Bool) (a : α) : List α → List α
  | [] => [a]
  | b :: bs => if le a b then a :: b :: bs else b :: insortBy le a bs

/-- Insertion sort.  Models Python `sorted`: for the key-distinct
association lists the loader sorts, the sorted permutation is unique, so
any correct sort is faithful. -/
def sortBy (le : α → α → Bool) : List α → List α
  | [] => []
  | a :: as => insortBy le a (sortBy le as)

/-! ### Filesystem, blob store, events -/

abbrev Digest := String

/-- The filesystem as the loader observes it. -/
structure Fs where
  isFile : String → Bool
  pathExists : String → Bool
  listdir : String → List String

/-- An observable side effect: a blob-store `put_file_from_path(path,
description)` call, or a `make_executable` chmod. -/
inductive FsEvent where
  | put (path : String) (description : String)
  | chmod (path : String)

/-- The blob store: content-addressed digest of the file at a path (the
directory is fixed and unchanged for the duration of a run, so the digest
is a function of the path). -/
abbrev Fc := String → Digest

/-! ### Entity model (`cms.db` objects as the loader constructs them)

The `cms.db` classes are plain ORM records outside this slice; each
structure below records exactly the constructor arguments the loader
passes.  Fields that the loader copies straight out of the descriptor are
kept as `PyVal`. -/

structure Statement where
  language : String
  digest : Digest

structure Attachment where
  filename : String
  digest : Digest

structure Manager where
  filename : String
  digest : Digest

structure Testcase where
  codename : String
  pub : Bool
  input : Digest
  output : Digest

structure Task where
  name : PyVal
  title : PyVal
  max_submission_number : PyVal
  max_user_test_number : PyVal
  min_submission_interval : PyVal
  min_user_test_interval : PyVal
  score_precision : PyVal
  score_mode : PyVal
  statements : Option (List (String × Statement))
  primary_statements : Option (List String)
  attachments : Option (List (String × Attachment))
  submission_format : List String

structure Dataset where
  task : Task
  description : String
  task_type : PyVal
  score_type : PyVal
  score_type_parameters : PyVal
  autojudge : PyVal
  time_limit : Rat
  memory_limit : PyVal
  managers : List (String × Manager)
  task_type_parameters : Option PyVal
  testcases : List (String × Testcase)

structure Contest where
  name : PyVal
  description : PyVal
  languages : List PyVal
  submissions_download_allowed : PyVal
  allow_questions : PyVal
  allow_user_tests : PyVal
  block_hidden_participations : PyVal
  allow_password_authentication : PyVal
  start : PyVal
  stop : PyVal
  timezone : PyVal
  per_user_time : PyVal
  max_submission_number : PyVal
  max_user_test_number : PyVal
  min_submission_interval : PyVal
  min_user_test_interval : PyVal
  score_precision : PyVal

/-- Modelled from the spec: `build_password` from `cmscommon.crypto` is not
in the source slice; the spec only says the plaintext is "hashed by this
pipeline before storage", so we model the hash as an opaque injective
wrapper around the plaintext. -/
structure Hashed where
  plain : PyVal

structure User where
  username : PyVal
  password : Hashed
  first_name : PyVal
  last_name : PyVal
  timezone : PyVal

/-- `x or y` in Python. -/
def pyOr (a b : PyVal) : PyVal := if a.truthy then a else b

/-- Pair of optionally-present test files sharing one stem
(class `IOPair`). -/
structure IOPair where
  input : Option String
  output : Option String

/-- Truthiness of an `IOPair` slot (`None` and `''` are falsy). -/
def optTruthy : Option String → Bool
  | none => false
  | some s => s != ""

/-- Modelled from the spec: `SCORE_MODE_MAX` from `cmscommon.constants` is
not in the source slice; §4.3 of the spec gives score mode "max". -/
def SCORE_MODE_MAX : String := "max"

def DATASET_DEFAULTS : Config := [
  ("task_type", .vStr "Batch"),
  ("score_type", .vStr "Sum"),
  ("score_type_parameters", .vInt 100),
  ("autojudge", .vBool true),
  ("time_limit", .vInt 3),
  ("memory_limit", .vInt 536870912)]

def TASK_DEFAULTS : Config := [
  ("name", .vNone),
  ("title", .vNone),
  ("max_submission_number", .vInt 200),
  ("max_user_test_number", .vInt 30),
  ("min_submission_interval", .vInt 60),
  ("min_user_test_interval", .vInt 60),
  ("score_precision", .vInt 0),
  ("score_mode", .vStr SCORE_MODE_MAX)]

def LANGUAGE_MAPPING : List (String × String) := [
  ("c++", "C++17 / g++"),
  ("cpp", "C++17 / g++"),
  ("java", "Java / JDK"),
  ("python3", "Python 3 / CPython"),
  ("pypy3", "Python 3 / PyPy")]

def CONTEST_DEFAULTS : Config := [
  ("name", .vNone),
  ("description", .vNone),
  ("languages", .vList [.vStr "cpp", .vStr "java", .vStr "python3"]),
  ("submissions_download_allowed", .vBool true),
  ("allow_questions", .vBool true),
  ("allow_user_tests", .vBool true),
  ("block_hidden_participations", .vBool false),
  ("allow_password_authentication", .vBool true),
  ("start", .vNone),
  ("stop", .vNone),
  ("timezone", .vNone),
  ("per_user_time", .vNone),
  ("max_submission_number", .vInt 500),
  ("max_user_test_number", .vInt 100),
  ("min_submission_interval", .vInt 1),
  ("min_user_test_interval", .vInt 1),
  ("score_precision", .vInt 0)]

/-- `timedelta(seconds=v)` coercion applied to interval fields:
`if isinstance(v, (int, float)): v = timedelta(seconds=v)`. -/
def coerce_timedelta (v : PyVal) : PyVal :=
  if v.isNumber then .vTimedelta v.asRat else v

/-- `datetime.utcfromtimestamp(v)` coercion applied to `start`/`stop`:
`if isinstance(v, (int, float)): v = datetime.utcfromtimestamp(v)`. -/
def coerce_datetime (v : PyVal) : PyVal :=
  if v.isNumber then .vDatetime v.asRat else v

/-- `float(v)`: exact for int/float/bool; for strings we model the integer
literals (`float("3")`); non-integer strings are conservatively a
`ValueError` and other types a `TypeError`, as in Python. -/
def pyFloat : PyVal → Except KGError Rat
  | .vInt n => .ok (n : Rat)
  | .vFloat q => .ok q
  | .vBool b => .ok (if b then 1 else 0)
  | .vStr s =>
    match s.toInt? with
    | some n => .ok (n : Rat)
    | none => .error .valueError
  | _ => .error .typeError

/-- Is the value a Python `str`? -/
def PyVal.isStr : PyVal → Bool
  | .vStr _ => true
  | _ => false

/-- One language short code through `LANGUAGE_MAPPING.get(lang, lang)`
(strings only; the total function used to state C7). -/
def normalizeLanguage : PyVal → PyVal
  | .vStr s => .vStr ((LANGUAGE_MAPPING.lookup s).getD s)
  | v => v

/-- Python's `<` on strings, as a strict version of `strLe`. -/
def strLt (a b : String) : Bool := strLe a b && !(a == b)

/-- The comparison `sorted(test_bases.items())` effectively uses: the
stems are pairwise distinct, so Python's tuple comparison never reaches
the `IOPair` component and reduces to string comparison on the stem. -/
def stemLe (a b : String × IOPair) : Bool := strLe a.1 b.1

/-- There is a file in `l` whose (stem, extension) split is `(s, ext)`. -/
def hasStemExt (l : List String) (s ext : String) : Prop :=
  ∃ f ∈ l, splitext f = (s, ext)

instance (l : List String) (s ext : String) : Decidable (hasStemExt l s ext) :=
  List.decidableBEx _ l

/-- The value the tests scan associates to stem `s`, as a function of the
file set only: `acc` is the value before the scan, and each slot is
overwritten exactly when a file with that stem and extension exists. -/
def canonPair (l : List String) (acc : Option IOPair) (s : String) : Option IOPair :=
  if hasStemExt l s ".in" ∨ hasStemExt l s ".ans" ∨ acc.isSome then
    some ⟨if hasStemExt l s ".in" then some (s ++ ".in")
          else (acc.getD ⟨none, none⟩).input,
          if hasStemExt l s ".ans" then some (s ++ ".ans")
          else (acc.getD ⟨none, none⟩).output⟩
  else none

/-- The `task_type_parameters` step can only fail for `'Communication'`
descriptors lacking `node_count`/`io_type`. -/
def paramsOk (cfg : Config) : Bool :=
  !(cfgGet cfg "task_type" (.vStr "Batch")).eqStr "Communication" ||
  ((cfg.lookup "node_count").isSome && (cfg.lookup "io_type").isSome)

/-- The `get_user` match predicate: entry tagged as an ordinary user whose
username equals the sought one. -/
def isUserMatch (uname : String) (u : Config) : Bool :=
  (cfgGet u "type" .vNone).eqStr "user" && (cfgGet u "username" .vNone).eqStr uname

/-- Did the computation fail with the bad-I/O error? -/
def isBadIoErr : Except KGError α → Bool
  | .error (.badIo _) => true
  | _ => false

/-- The stem list carried by a bad-I/O error. -/
def errBadIo : Except KGError α → List String
  | .error (.badIo stems) => stems
  | _ => []

/-- Placeholder `Task` for reading successful results off an `Except`. -/
def taskDefault : Task :=
  ⟨.vNone, .vNone, .vNone, .vNone, .vNone, .vNone, .vNone, .vNone,
    none, none, none, []⟩

/-- Placeholder `Dataset` for reading successful results off an `Except`. -/
def datasetDefault : Dataset :=
  ⟨taskDefault, "", .vNone, .vNone, .vNone, .vNone, 0, .vNone, [], none, []⟩

/-- Placeholder `Contest` for reading successful results off an `Except`. -/
def contestDefault : Contest :=
  ⟨.vNone, .vNone, [], .vNone, .vNone, .vNone, .vNone, .vNone, .vNone,
    .vNone, .vNone, .vNone, .vNone, .vNone, .vNone, .vNone, .vNone⟩

/-- Placeholder `User` for reading successful results off an `Except`. -/
def userDefault : User := ⟨.vNone, ⟨.vNone⟩, .vNone, .vNone, .vNone⟩

end KG

namespace KG.KGTaskLoader

open KG

/-- The attachments loop of `_get_task`: check existence, reject duplicate
names, store the blob, accumulate `(filename, Attachment)` in iteration
order. -/
def loadAttachments (fc : Fc) (fs : Fs) (selfPath : String) (nameStr : String) :
    List PyVal → List (String × Attachment) →
    List FsEvent × Except KGError (List (String × Attachment))
  | [], acc => ([], .ok acc)
  | a :: rest, acc =>
    match a with
    | .vStr att =>
      let path := joinPath (joinPath selfPath "attachments") att
      if fs.isFile path then
        if (acc.lookup att).isSome then
          ([], .error (.duplicateAttachment att))
        else
          let desc := "Attachment for Task: " ++ nameStr
          match loadAttachments fc fs selfPath nameStr rest
              (acc ++ [(att, ⟨att, fc path⟩)]) with
          | (tr, r) => (.put path desc :: tr, r)
      else ([], .error (.missingAttachment path))
    | _ => ([], .error .typeError)

/-- `KGTaskLoader._get_task`: build the `Task` from the descriptor, loading
the statement and attachments.  Returns the trace of blob-store/chmod
events alongside the result. -/
def _get_task (fc : Fc) (fs : Fs) (selfPath : String) (task_config : Config)
    (get_statement : Bool) : List FsEvent × Except KGError Task :=
  -- fields = {field: task_config.get(field, default) for ... TASK_DEFAULTS}
  let name := cfgGet task_config "name" .vNone
  if !name.truthy then ([], .error .invalidName)
  else
    -- load the statement
    let stmtStep : List FsEvent × Except KGError (Option (List (String × Statement) × List String)) :=
      if get_statement then
        match cfgIndex task_config "statement" with
        | .error e => ([], .error e)
        | .ok sv =>
          match sv with
          | .vStr srel =>
            let statement_path := joinPath selfPath srel
            if fs.isFile statement_path then
              let desc := "Statement for Task: " ++ name.pyStr
              ([.put statement_path desc],
                .ok (some ([("en", ⟨"en", fc statement_path⟩)], ["en"])))
            else ([], .error (.missingStatement statement_path))
          | _ => ([], .error .typeError)
      else ([], .ok none)
    match stmtStep with
    | (tr₁, .error e) => (tr₁, .error e)
    | (tr₁, .ok stmt) =>
      -- load the attachments
      let attachments := cfgGet task_config "attachments" (.vList [])
      let attStep : List FsEvent × Except KGError (Option (List (String × Attachment))) :=
        if attachments.truthy then
          match attachments.pyIter with
          | none => ([], .error .typeError)
          | some items =>
            match loadAttachments fc fs selfPath name.pyStr items [] with
            | (tr, .ok l) => (tr, .ok (some l))
            | (tr, .error e) => (tr, .error e)
        else ([], .ok none)
      match attStep with
      | (tr₂, .error e) => (tr₁ ++ tr₂, .error e)
      | (tr₂, .ok atts) =>
        -- set task-type-specific fields
        match cfgIndex task_config "task_type" with
        | .error e => (tr₁ ++ tr₂, .error e)
        | .ok tt =>
          if tt.eqStr "Batch" || tt.eqStr "Communication" then
            (tr₁ ++ tr₂, .ok {
              name := name,
              title := cfgGet task_config "title" .vNone,
              max_submission_number := cfgGet task_config "max_submission_number" (.vInt 200),
              max_user_test_number := cfgGet task_config "max_user_test_number" (.vInt 30),
              min_submission_interval :=
                coerce_timedelta (cfgGet task_config "min_submission_interval" (.vInt 60)),
              min_user_test_interval :=
                coerce_timedelta (cfgGet task_config "min_user_test_interval" (.vInt 60)),
              score_precision := cfgGet task_config "score_precision" (.vInt 0),
              score_mode := cfgGet task_config "score_mode" (.vStr SCORE_MODE_MAX),
              statements := stmt.map Prod.fst,
              primary_statements := stmt.map Prod.snd,
              attachments := atts,
              submission_format := [name.pyStr ++ ".%l"] })
          else (tr₁ ++ tr₂, .error (.unsupportedTaskType tt.pyStr))

/-- Record the `.in`-slot of a stem (`test_bases[base].input = filename`,
with `defaultdict` insertion order: first touch appends). -/
def setInput : List (String × IOPair) → String → String → List (String × IOPair)
  | [], base, f => [(base, ⟨some f, none⟩)]
  | (k, p) :: rest, base, f =>
    if k = base then (k, ⟨some f, p.output⟩) :: rest
    else (k, p) :: setInput rest base f

/-- Record the `.ans`-slot of a stem. -/
def setOutput : List (String × IOPair) → String → String → List (String × IOPair)
  | [], base, f => [(base, ⟨none, some f⟩)]
  | (k, p) :: rest, base, f =>
    if k = base then (k, ⟨p.input, some f⟩) :: rest
    else (k, p) :: setOutput rest base f

/-- The `os.listdir` scan of `tests/`: split each filename, fill the
matching slot, reject any other extension. -/
def buildBases : List String → List (String × IOPair) →
    Except KGError (List (String × IOPair))
  | [], acc => .ok acc
  | f :: rest, acc =>
    let be := splitext (basename f)
    if be.2 = ".in" then buildBases rest (setInput acc be.1 f)
    else if be.2 = ".ans" then buildBases rest (setOutput acc be.1 f)
    else .error (.unrecognizedFile f)

/-- The testcase-loading loop: for each matched stem (already sorted), put
both files into the blob store and build a `Testcase`.  A slot can only be
`none` for stems that already failed the bad-I/O check, so missing slots
are read as empty paths (they never occur on the paths we prove about). -/
def loadTestcases (fc : Fc) (testsPath : String) (taskNameStr : String) :
    List (String × IOPair) → List FsEvent × List (String × Testcase)
  | [] => ([], [])
  | (base, p) :: rest =>
    let inPath := joinPath testsPath (p.input.getD "")
    let outPath := joinPath testsPath (p.output.getD "")
    let inDesc := "Input " ++ base ++ " for Task: " ++ taskNameStr
    let outDesc := "Output " ++ base ++ " for Task: " ++ taskNameStr
    let tc : Testcase := ⟨base, true, fc inPath, fc outPath⟩
    match loadTestcases fc testsPath taskNameStr rest with
    | (tr, tcs) => (.put inPath inDesc :: .put outPath outDesc :: tr, (base, tc) :: tcs)

/-- The "set checker" step of `_create_and_attach_dataset`: if a `checker`
file exists at the task root, chmod it, store it, register the `'checker'`
manager and select `'comparator'`; otherwise only warn (non-fatal) and
select `'diff'`. -/
def checker_step (fc : Fc) (fs : Fs) (selfPath : String) (nameStr : String) :
    List FsEvent × List (String × Manager) × String :=
  let checker_path := joinPath selfPath "checker"
  if fs.pathExists checker_path then
    ([.chmod checker_path, .put checker_path ("Checker for Task: " ++ nameStr)],
      [("checker", ⟨"checker", fc checker_path⟩)], "comparator")
  else ([], [], "diff")  -- logger.warn: non-fatal, fall back to diff

/-- The "set manager (interactor)" step of `_create_and_attach_dataset`:
unconditional on the task type. -/
def manager_step (fc : Fc) (fs : Fs) (selfPath : String) (nameStr : String) :
    List FsEvent × List (String × Manager) :=
  let manager_path := joinPath selfPath "manager"
  if fs.pathExists manager_path then
    ([.chmod manager_path, .put manager_path ("Manager for Task: " ++ nameStr)],
      [("manager", ⟨"manager", fc manager_path⟩)])
  else ([], [])

/-- The `task_type_parameters` assignments of `_create_and_attach_dataset`:
`['alone', ['', ''], evaluation_param]` for Batch, descriptor-driven for
Communication (with `KeyError` on missing keys), nothing otherwise. -/
def datasetParams (task_config : Config) (evaluation_param : String) :
    Except KGError (Option PyVal) :=
  let ttype := cfgGet task_config "task_type" (.vStr "Batch")
  if ttype.eqStr "Batch" then
    .ok (some (.vList [.vStr "alone", .vList [.vStr "", .vStr ""],
      .vStr evaluation_param]))
  else if ttype.eqStr "Communication" then
    match cfgIndex task_config "node_count" with
    | .error e => .error e
    | .ok nodeCount =>
      match cfgIndex task_config "io_type" with
      | .error e => .error e
      | .ok ioType => .ok (some (.vList [nodeCount, .vStr "alone", ioType]))
  else .ok none

/-- `KGTaskLoader._create_and_attach_dataset`: build the `Dataset`
(checker/manager managers, task-type parameters, matched+sorted
testcases) and attach it to the task. -/
def _create_and_attach_dataset (fc : Fc) (fs : Fs) (selfPath : String)
    (task_config : Config) (task : Task) : List FsEvent × Except KGError Dataset :=
  let cs := checker_step fc fs selfPath task.name.pyStr
  let ms := manager_step fc fs selfPath task.name.pyStr
  let managers := cs.2.1 ++ ms.2
  let trHead := cs.1 ++ ms.1
  match datasetParams task_config cs.2.2 with
  | .error e => (trHead, .error e)
  | .ok params =>
    -- read test data from tests/
    let tests_path := joinPath selfPath "tests"
    match buildBases (fs.listdir tests_path) [] with
    | .error e => (trHead, .error e)
    | .ok test_bases =>
      -- check for missing I/O
      let bad_io :=
        (test_bases.filter
          (fun kp => !(optTruthy kp.2.input && optTruthy kp.2.output))).map Prod.fst
      if !bad_io.isEmpty then (trHead, .error (.badIo bad_io))
      else if test_bases.isEmpty then (trHead, .error .emptyTests)
      else
        -- load test cases (in lexicographic stem order)
        let sorted := sortBy stemLe test_bases
        match loadTestcases fc tests_path task.name.pyStr sorted with
        | (trTc, tcs) =>
          -- time_limit coercion: float(fields['time_limit'])
          match pyFloat (cfgGet task_config "time_limit" (.vInt 3)) with
          | .error e => (trHead ++ trTc, .error e)
          | .ok tl =>
            (trHead ++ trTc, .ok {
              task := task,
              description := "Default",
              task_type := cfgGet task_config "task_type" (.vStr "Batch"),
              score_type := cfgGet task_config "score_type" (.vStr "Sum"),
              score_type_parameters := cfgGet task_config "score_type_parameters" (.vInt 100),
              autojudge := cfgGet task_config "autojudge" (.vBool true),
              time_limit := tl,
              memory_limit := cfgGet task_config "memory_limit" (.vInt 536870912),
              managers := managers,
              task_type_parameters := params,
              testcases := tcs })

/-- `KGTaskLoader.get_task`: load the descriptor (passed already parsed),
build the `Task`, attach the `Dataset`.  The resulting pair models the
task together with its active dataset (`task.active_dataset = dataset` is
the one post-construction mutation). -/
def get_task (fc : Fc) (fs : Fs) (selfPath : String) (task_config : Config)
    (get_statement : Bool) : List FsEvent × Except KGError (Task × Dataset) :=
  match _get_task fc fs selfPath task_config get_statement with
  | (tr, .error e) => (tr, .error e)
  | (tr, .ok task) =>
    match _create_and_attach_dataset fc fs selfPath task_config task with
    | (tr₂, .error e) => (tr ++ tr₂, .error e)
    | (tr₂, .ok ds) => (tr ++ tr₂, .ok (task, ds))

end KG.KGTaskLoader

namespace KG.KGContestLoader

open KG

/-- `LANGUAGE_MAPPING.get(lang, lang)`: strings go through the lookup table
(falling back to themselves); other hashable values fall back to
themselves; a list key would raise `TypeError` (unhashable). -/
def mapLanguage : PyVal → Except KGError PyVal
  | .vStr s =>
    match LANGUAGE_MAPPING.lookup s with
    | some d => .ok (.vStr d)
    | none => .ok (.vStr s)
  | .vList _ => .error .typeError
  | v => .ok v

/-- Map `mapLanguage` over the configured list. -/
def mapLanguages : List PyVal → Except KGError (List PyVal)
  | [] => .ok []
  | v :: rest =>
    match mapLanguage v with
    | .error e => .error e
    | .ok w =>
      match mapLanguages rest with
      | .error e => .error e
      | .ok ws => .ok (w :: ws)

/-- `KGContestLoader._get_contest`: merge descriptor fields with
`CONTEST_DEFAULTS`, normalize language names, coerce `start`/`stop` to
datetimes and the min-interval fields to timedeltas. -/
def _get_contest (contest_config : Config) : Except KGError Contest :=
  let langsRaw := cfgGet contest_config "languages"
    (.vList [.vStr "cpp", .vStr "java", .vStr "python3"])
  match langsRaw.pyIter with
  | none => .error .typeError
  | some items =>
    match mapLanguages items with
    | .error e => .error e
    | .ok langs =>
      .ok {
        name := cfgGet contest_config "name" .vNone,
        description := cfgGet contest_config "description" .vNone,
        languages := langs,
        submissions_download_allowed :=
          cfgGet contest_config "submissions_download_allowed" (.vBool true),
        allow_questions := cfgGet contest_config "allow_questions" (.vBool true),
        allow_user_tests := cfgGet contest_config "allow_user_tests" (.vBool true),
        block_hidden_participations :=
          cfgGet contest_config "block_hidden_participations" (.vBool false),
        allow_password_authentication :=
          cfgGet contest_config "allow_password_authentication" (.vBool true),
        start := coerce_datetime (cfgGet contest_config "start" .vNone),
        stop := coerce_datetime (cfgGet contest_config "stop" .vNone),
        timezone := cfgGet contest_config "timezone" .vNone,
        per_user_time := cfgGet contest_config "per_user_time" .vNone,
        max_submission_number := cfgGet contest_config "max_submission_number" (.vInt 500),
        max_user_test_number := cfgGet contest_config "max_user_test_number" (.vInt 100),
        min_submission_interval :=
          coerce_timedelta (cfgGet contest_config "min_submission_interval" (.vInt 1)),
        min_user_test_interval :=
          coerce_timedelta (cfgGet contest_config "min_user_test_interval" (.vInt 1)),
        score_precision := cfgGet contest_config "score_precision" (.vInt 0) }

/-- The search loop of `get_user`: first entry whose `type` is `'user'`
and whose `username` equals the sought name (the `and` short-circuits, so
`username` is only read on entries of type `'user'`). -/
def findUser (username : String) : List Config → Except KGError (Option Config)
  | [] => .ok none
  | u :: rest =>
    match cfgIndex u "type" with
    | .error e => .error e
    | .ok t =>
      if t.eqStr "user" then
        match cfgIndex u "username" with
        | .error e => .error e
        | .ok un =>
          if un.eqStr username then .ok (some u)
          else findUser username rest
      else findUser username rest

/-- `KGContestLoader.get_user`: derive the username from the trailing path
segment; return the first matching ordinary-user entry as a `User`
(missing first/last names default to `''` via `x or ''`), else fail with
the unknown-user error.  The parsed user list (`_get_user_list`) is passed
in directly. -/
def get_user (selfPath : String) (users : List Config) : Except KGError User :=
  let username := basename selfPath
  match findUser username users with
  | .error e => .error e
  | .ok none => .error (.unknownUser username)
  | .ok (some u) =>
    match cfgIndex u "username" with
    | .error e => .error e
    | .ok un =>
      match cfgIndex u "password" with
      | .error e => .error e
      | .ok pw =>
        .ok {
          username := un,
          password := ⟨pw⟩,
          first_name := pyOr (cfgGet u "first_name" .vNone) (.vStr ""),
          last_name := pyOr (cfgGet u "last_name" .vNone) (.vStr ""),
          timezone := cfgGet u "timezone" .vNone }

end KG.KGContestLoader

/-! ## Theorems -/

namespace KG

open KGTaskLoader KGContestLoader

/-- Helper: a successful `_get_contest` returns exactly the merged record
(its `languages` are whatever the normalization produced). -/
theorem _get_contest_ok_eq (cfg : Config)
    (h : exceptOk (_get_contest cfg) = true) :
    _get_contest cfg = .ok {
      name := cfgGet cfg "name" .vNone,
      description := cfgGet cfg "description" .vNone,
      languages := (getOkD (_get_contest cfg) contestDefault).languages,
      submissions_download_allowed :=
        cfgGet cfg "submissions_download_allowed" (.vBool true),
      allow_questions := cfgGet cfg "allow_questions" (.vBool true),
      allow_user_tests := cfgGet cfg "allow_user_tests" (.vBool true),
      block_hidden_participations :=
        cfgGet cfg "block_hidden_participations" (.vBool false),
      allow_password_authentication :=
        cfgGet cfg "allow_password_authentication" (.vBool true),
      start := coerce_datetime (cfgGet cfg "start" .vNone),
      stop := coerce_datetime (cfgGet cfg "stop" .vNone),
      timezone := cfgGet cfg "timezone" .vNone,
      per_user_time := cfgGet cfg "per_user_time" .vNone,
      max_submission_number := cfgGet cfg "max_submission_number" (.vInt 500),
      max_user_test_number := cfgGet cfg "max_user_test_number" (.vInt 100),
      min_submission_interval :=
        coerce_timedelta (cfgGet cfg "min_submission_interval" (.vInt 1)),
      min_user_test_interval :=
        coerce_timedelta (cfgGet cfg "min_user_test_interval" (.vInt 1)),
      score_precision := cfgGet cfg "score_precision" (.vInt 0) } := by
  simp only [_get_contest] at h ⊢
  cases hit : (cfgGet cfg "languages"
      (.vList [.vStr "cpp", .vStr "java", .vStr "python3"])).pyIter with
  | none => rw [hit] at h; simp [exceptOk] at h
  | some items =>
    rw [hit] at h
    cases hml : mapLanguages items with
    | error e => simp [hml, exceptOk] at h
    | ok ws => simp [hml, getOkD]

/-- C6: in `_get_contest`, numeric `start`/`stop` become UTC datetimes of
that epoch value, numeric `min_submission_interval` /
`min_user_test_interval` become second-durations, and non-numeric values
of these fields pass through unchanged. -/
theorem C6_contest_temporal_coercion (cfg : Config) (n : Int) (q : Rat)
    (v : PyVal) (h : exceptOk (_get_contest cfg) = true) :
    ((getOkD (_get_contest cfg) contestDefault).start
      = coerce_datetime (cfgGet cfg "start" .vNone)) ∧
    ((getOkD (_get_contest cfg) contestDefault).stop
      = coerce_datetime (cfgGet cfg "stop" .vNone)) ∧
    ((getOkD (_get_contest cfg) contestDefault).min_submission_interval
      = coerce_timedelta (cfgGet cfg "min_submission_interval" (.vInt 1))) ∧
    ((getOkD (_get_contest cfg) contestDefault).min_user_test_interval
      = coerce_timedelta (cfgGet cfg "min_user_test_interval" (.vInt 1))) ∧
    (coerce_datetime (.vInt n) = .vDatetime (n : Rat)) ∧
    (coerce_datetime (.vFloat q) = .vDatetime q) ∧
    (v.isNumber = false → coerce_datetime v = v) ∧
    (coerce_timedelta (.vInt n) = .vTimedelta (n : Rat)) ∧
    (coerce_timedelta (.vFloat q) = .vTimedelta q) ∧
    (v.isNumber = false → coerce_timedelta v = v) := by
  have hr := _get_contest_ok_eq cfg h
  refine ⟨by rw [hr]; rfl, by rw [hr]; rfl, by rw [hr]; rfl, by rw [hr]; rfl,
    by simp [coerce_datetime, PyVal.isNumber, PyVal.asRat],
    by simp [coerce_datetime, PyVal.isNumber, PyVal.asRat],
    fun hv => by simp [coerce_datetime, hv],
    by simp [coerce_timedelta, PyVal.isNumber, PyVal.asRat],
    by simp [coerce_timedelta, PyVal.isNumber, PyVal.asRat],
    fun hv => by simp [coerce_timedelta, hv]⟩

/-- C6 witness: a contest descriptor with numeric `start`, non-numeric
`stop` and a float submission interval. -/
theorem C6_witness :
    exceptOk (_get_contest [("start", .vInt 100), ("stop", .vStr "tomorrow"),
      ("min_submission_interval", .vFloat (3 / 2))]) = true ∧
    (getOkD (_get_contest [("start", .vInt 100), ("stop", .vStr "tomorrow"),
        ("min_submission_interval", .vFloat (3 / 2))]) contestDefault).start
      = coerce_datetime (cfgGet [("start", .vInt 100), ("stop", .vStr "tomorrow"),
        ("min_submission_interval", .vFloat (3 / 2))] "start" .vNone) ∧
    (getOkD (_get_contest [("start", .vInt 100), ("stop", .vStr "tomorrow"),
        ("min_submission_interval", .vFloat (3 / 2))]) contestDefault).stop
      = coerce_datetime (cfgGet [("start", .vInt 100), ("stop", .vStr "tomorrow"),
        ("min_submission_interval", .vFloat (3 / 2))] "stop" .vNone) :=
  ⟨rfl,
    (C6_contest_temporal_coercion [("start", .vInt 100), ("stop", .vStr "tomorrow"),
      ("min_submission_interval", .vFloat (3 / 2))] 100 (3 / 2)
      (.vStr "tomorrow") rfl).1,
    (C6_contest_temporal_coercion [("start", .vInt 100), ("stop", .vStr "tomorrow"),
      ("min_submission_interval", .vFloat (3 / 2))] 100 (3 / 2)
      (.vStr "tomorrow") rfl).2.1⟩

/-- Helper: normalizing a list of string codes succeeds and maps
`normalizeLanguage` over it. -/
theorem mapLanguages_all_str : ∀ xs : List PyVal, (∀ v ∈ xs, v.isStr = true) →
    mapLanguages xs = .ok (xs.map normalizeLanguage)
  | [], _ => rfl
  | x :: rest, h => by
    have hx : x.isStr = true := h x (by simp)
    have hrest := mapLanguages_all_str rest (fun v hv => h v (by simp [hv]))
    cases x with
    | vStr s =>
      have hm : mapLanguage (.vStr s) = .ok (normalizeLanguage (.vStr s)) := by
        unfold mapLanguage normalizeLanguage
        cases hls : LANGUAGE_MAPPING.lookup s <;> simp [hls]
      unfold mapLanguages
      rw [hm, hrest]
      simp
    | vNone => simp [PyVal.isStr] at hx
    | vBool b => simp [PyVal.isStr] at hx
    | vInt n => simp [PyVal.isStr] at hx
    | vFloat q => simp [PyVal.isStr] at hx
    | vList l => simp [PyVal.isStr] at hx
    | vDatetime q => simp [PyVal.isStr] at hx
    | vTimedelta q => simp [PyVal.isStr] at hx

/-- C7: `_get_contest` rewrites each configured short code through
`LANGUAGE_MAPPING`, leaving unknown codes unchanged and preserving the
list's length and order. -/
theorem C7_language_mapping (cfg : Config) (xs : List PyVal)
    (hl : cfg.lookup "languages" = some (.vList xs))
    (hs : xs.all PyVal.isStr = true) :
    exceptOk (_get_contest cfg) = true ∧
    (getOkD (_get_contest cfg) contestDefault).languages
      = xs.map normalizeLanguage ∧
    (getOkD (_get_contest cfg) contestDefault).languages.length = xs.length := by
  have hget : cfgGet cfg "languages"
      (.vList [.vStr "cpp", .vStr "java", .vStr "python3"]) = .vList xs := by
    simp [cfgGet, hl]
  have hs' : ∀ v ∈ xs, v.isStr = true := by
    intro v hv
    exact List.all_eq_true.mp hs v hv
  simp only [_get_contest, hget, PyVal.pyIter]
  rw [mapLanguages_all_str xs hs']
  simp [exceptOk, getOkD]

/-- C7 witness: `["cpp","java","unknown-lang"]` maps the first two through
the table and passes the third through verbatim. -/
theorem C7_witness :
    ([("languages", .vList [.vStr "cpp", .vStr "java", .vStr "unknown-lang"])]
        : Config).lookup "languages"
      = some (.vList [.vStr "cpp", .vStr "java", .vStr "unknown-lang"]) ∧
    ([PyVal.vStr "cpp", .vStr "java", .vStr "unknown-lang"].all PyVal.isStr
      = true) ∧
    (getOkD (_get_contest
        [("languages", .vList [.vStr "cpp", .vStr "java", .vStr "unknown-lang"])])
        contestDefault).languages
      = [.vStr "C++17 / g++", .vStr "Java / JDK", .vStr "unknown-lang"] ∧
    (exceptOk (_get_contest
        [("languages", .vList [.vStr "cpp", .vStr "java", .vStr "unknown-lang"])])
      = true ∧
     (getOkD (_get_contest
        [("languages", .vList [.vStr "cpp", .vStr "java", .vStr "unknown-lang"])])
        contestDefault).languages
      = [PyVal.vStr "cpp", .vStr "java", .vStr "unknown-lang"].map normalizeLanguage ∧
     (getOkD (_get_contest
        [("languages", .vList [.vStr "cpp", .vStr "java", .vStr "unknown-lang"])])
        contestDefault).languages.length
      = [PyVal.vStr "cpp", .vStr "java", .vStr "unknown-lang"].length) :=
  ⟨rfl, rfl, rfl, C7_language_mapping _ _ rfl rfl⟩

/-- C4: a task descriptor whose `name` is absent, `null` or empty makes
`get_task` fail with the missing-name error before any blob-store put or
chmod: the event trace is empty. -/
theorem C4_missing_name_fails_without_io (fc : Fc) (fs : Fs)
    (selfPath : String) (cfg : Config) (gs : Bool)
    (h : cfg.lookup "name" = none ∨ cfg.lookup "name" = some .vNone ∨
      cfg.lookup "name" = some (.vStr "")) :
    get_task fc fs selfPath cfg gs = ([], .error .invalidName) := by
  have hname : (cfgGet cfg "name" .vNone).truthy = false := by
    rcases h with h | h | h <;> simp [cfgGet, h, PyVal.truthy]
  simp only [get_task, _get_task]
  rw [hname]
  simp

/-- C4 witness: the empty descriptor (absent `name`). -/
theorem C4_witness :
    (([] : Config).lookup "name" = none ∨ ([] : Config).lookup "name" = some .vNone ∨
      ([] : Config).lookup "name" = some (.vStr "")) ∧
    get_task (fun _ => "") ⟨fun _ => true, fun _ => true, fun _ => []⟩ "task" [] true
      = ([], .error .invalidName) :=
  ⟨Or.inl rfl,
    C4_missing_name_fails_without_io _ _ _ _ _ (Or.inl rfl)⟩

/-- C9 counterexample: a descriptor lacking `task_type` need not fail
with the key-lookup error — a descriptor also lacking `name` fails with
the invalid-name error of the earlier stage instead. -/
theorem C9_counterexample :
    ([] : Config).lookup "task_type" = none ∧
    get_task (fun p => p) ⟨fun _ => true, fun _ => false, fun _ => []⟩ "task"
      [] true = ([], .error .invalidName) ∧
    KGError.invalidName ≠ KGError.keyError "task_type" :=
  ⟨rfl, rfl, fun h => KGError.noConfusion h⟩

/-- C9 (amended: the earlier `_get_task` stages succeed): a descriptor
lacking `task_type` whose name is truthy, whose statement file exists when
requested, and whose attachments (if any) load, makes `get_task` fail with
the `KeyError('task_type')` raised inside `_get_task`, before dataset
construction begins: the trace holds exactly the statement and attachment
puts — no checker/manager chmod and no testcase put — so the `'Batch'`
entry of the dataset defaults table is never consulted and `task_type` is
effectively a required descriptor field. -/
theorem C9_missing_task_type_keyerror (fc : Fc) (fs : Fs)
    (selfPath : String) (cfg : Config) (gs : Bool) (srel : String)
    (items : List PyVal)
    (hname : (cfgGet cfg "name" .vNone).truthy = true)
    (hstmt : gs = true → cfg.lookup "statement" = some (.vStr srel) ∧
      fs.isFile (joinPath selfPath srel) = true)
    (hatt : (cfgGet cfg "attachments" (.vList [])).truthy = false ∨
      ((cfgGet cfg "attachments" (.vList [])).pyIter = some items ∧
        exceptOk (loadAttachments fc fs selfPath
          (cfgGet cfg "name" .vNone).pyStr items []).2 = true))
    (htt : cfg.lookup "task_type" = none) :
    get_task fc fs selfPath cfg gs =
      ((if gs = true then [.put (joinPath selfPath srel)
          ("Statement for Task: " ++ (cfgGet cfg "name" .vNone).pyStr)]
        else []) ++
        (if (cfgGet cfg "attachments" (.vList [])).truthy
          then (loadAttachments fc fs selfPath
            (cfgGet cfg "name" .vNone).pyStr items []).1
          else []),
        .error (.keyError "task_type")) := by
  simp only [get_task, _get_task]
  rw [hname]
  by_cases hat : (cfgGet cfg "attachments" (.vList [])).truthy = true
  · rcases hatt with hatt | ⟨hiter, hexc⟩
    · rw [hatt] at hat
      exact absurd hat (by simp)
    · cases hla : loadAttachments fc fs selfPath
          (cfgGet cfg "name" .vNone).pyStr items [] with
      | mk tra ra =>
        cases ra with
        | error e => rw [hla] at hexc; simp [exceptOk] at hexc
        | ok la =>
          cases gs with
          | false => simp [hat, hiter, hla, cfgIndex, htt]
          | true =>
            obtain ⟨hs1, hs2⟩ := hstmt rfl
            simp [hs1, hs2, hat, hiter, hla, cfgIndex, htt]
  · rw [Bool.not_eq_true] at hat
    cases gs with
    | false => simp [hat, cfgIndex, htt]
    | true =>
      obtain ⟨hs1, hs2⟩ := hstmt rfl
      simp [hs1, hs2, hat, cfgIndex, htt]

/-- C9 witness: a named task with a statement on disk and one attachment
but no `task_type` key; the trace holds exactly the statement and
attachment puts and the error is the `task_type` key lookup. -/
theorem C9_keyerror_witness :
    ([("name", PyVal.vStr "t"), ("statement", .vStr "st.pdf"),
        ("attachments", .vList [.vStr "kit.zip"])] : Config).lookup "task_type"
      = none ∧
    get_task (fun p => p) ⟨fun _ => true, fun _ => false, fun _ => []⟩ "task"
        [("name", .vStr "t"), ("statement", .vStr "st.pdf"),
          ("attachments", .vList [.vStr "kit.zip"])] true
      = ([.put "task/st.pdf" "Statement for Task: t",
          .put "task/attachments/kit.zip" "Attachment for Task: t"],
          .error (.keyError "task_type")) :=
  ⟨rfl,
    C9_missing_task_type_keyerror (fun p => p)
      ⟨fun _ => true, fun _ => false, fun _ => []⟩ "task"
      [("name", .vStr "t"), ("statement", .vStr "st.pdf"),
        ("attachments", .vList [.vStr "kit.zip"])] true "st.pdf"
      [.vStr "kit.zip"] rfl (fun _ => ⟨rfl, rfl⟩)
      (Or.inr ⟨rfl, rfl⟩) rfl⟩

/-- Helper: the `get_user` scan returns no entry when nothing matches
(entries scanned must at least carry a `type` key, and a `username` key
when tagged as ordinary users, as the user-list schema guarantees). -/
theorem findUser_no_match (uname : String) : ∀ us : List Config,
    (∀ x ∈ us, (x.lookup "type").isSome = true ∧
      ((cfgGet x "type" .vNone).eqStr "user" = true →
        (x.lookup "username").isSome = true)) →
    (∀ x ∈ us, isUserMatch uname x = false) →
    findUser uname us = .ok none
  | [], _, _ => rfl
  | u :: rest, hwf, hnm => by
    have hrest := findUser_no_match uname rest
      (fun x hx => hwf x (by simp [hx])) (fun x hx => hnm x (by simp [hx]))
    have hu := hwf u (by simp)
    have hm := hnm u (by simp)
    cases ht : u.lookup "type" with
    | none => rw [ht] at hu; simp at hu
    | some t =>
      unfold findUser
      simp only [cfgIndex, ht]
      cases htu : t.eqStr "user" with
      | false => simp [htu, hrest]
      | true =>
        have hus : (u.lookup "username").isSome = true := by
          apply hu.2
          simp [cfgGet, ht, htu]
        cases hun : u.lookup "username" with
        | none => rw [hun] at hus; simp at hus
        | some un =>
          have : un.eqStr uname = false := by
            have := hm
            unfold isUserMatch at this
            simp [cfgGet, ht, hun, htu] at this
            exact this
          simp [htu, cfgIndex, hun, this, hrest]

/-- Helper: the `get_user` scan returns the first matching entry. -/
theorem findUser_found (uname : String) : ∀ (pre : List Config) (u : Config)
    (post : List Config),
    (∀ x ∈ pre, (x.lookup "type").isSome = true ∧
      ((cfgGet x "type" .vNone).eqStr "user" = true →
        (x.lookup "username").isSome = true)) →
    (∀ x ∈ pre, isUserMatch uname x = false) →
    isUserMatch uname u = true →
    findUser uname (pre ++ u :: post) = .ok (some u)
  | [], u, post, _, _, hm => by
    unfold isUserMatch at hm
    rw [Bool.and_eq_true] at hm
    obtain ⟨hm1, hm2⟩ := hm
    cases ht : u.lookup "type" with
    | none => rw [cfgGet, ht] at hm1; simp [PyVal.eqStr] at hm1
    | some t =>
      rw [cfgGet, ht] at hm1
      cases hun : u.lookup "username" with
      | none => rw [cfgGet, hun] at hm2; simp [PyVal.eqStr] at hm2
      | some un =>
        rw [cfgGet, hun] at hm2
        unfold findUser
        simp [cfgIndex, ht, hm1, hun, hm2]
  | x :: pre, u, post, hwf, hnm, hm => by
    have hrest := findUser_found uname pre u post
      (fun y hy => hwf y (by simp [hy])) (fun y hy => hnm y (by simp [hy])) hm
    have hx := hwf x (by simp)
    have hxm := hnm x (by simp)
    cases ht : x.lookup "type" with
    | none => rw [ht] at hx; simp at hx
    | some t =>
      unfold findUser
      simp only [List.cons_append, cfgIndex, ht]
      cases htu : t.eqStr "user" with
      | false => simp [htu, hrest]
      | true =>
        have hus : (x.lookup "username").isSome = true := by
          apply hx.2
          simp [cfgGet, ht, htu]
        cases hun : x.lookup "username" with
        | none => rw [hun] at hus; simp at hus
        | some un =>
          have : un.eqStr uname = false := by
            unfold isUserMatch at hxm
            simp [cfgGet, ht, hun, htu] at hxm
            exact hxm
          simp [htu, cfgIndex, hun, this, hrest]

/-- C8: `get_user` derives the username from the trailing path segment and
(1) fails with the unknown-user error naming it when no entry both is
tagged `'user'` and has exactly that username (wrong-type entries with a
matching username do not count), and (2) on the first match returns a
`User` with that username whose missing `first_name`/`last_name` default
to the empty string. -/
theorem C8_get_user_lookup (selfPath : String) (users pre post : List Config)
    (u : Config) (pw : PyVal)
    (hwf : ∀ x ∈ users, (x.lookup "type").isSome = true ∧
      ((cfgGet x "type" .vNone).eqStr "user" = true →
        (x.lookup "username").isSome = true)) :
    ((∀ x ∈ users, isUserMatch (basename selfPath) x = false) →
      get_user selfPath users = .error (.unknownUser (basename selfPath))) ∧
    (users = pre ++ u :: post →
      (∀ x ∈ pre, isUserMatch (basename selfPath) x = false) →
      isUserMatch (basename selfPath) u = true →
      u.lookup "password" = some pw →
      get_user selfPath users = .ok {
        username := .vStr (basename selfPath),
        password := ⟨pw⟩,
        first_name := pyOr (cfgGet u "first_name" .vNone) (.vStr ""),
        last_name := pyOr (cfgGet u "last_name" .vNone) (.vStr ""),
        timezone := cfgGet u "timezone" .vNone } ∧
      (u.lookup "first_name" = none →
        pyOr (cfgGet u "first_name" .vNone) (.vStr "") = .vStr "") ∧
      (u.lookup "last_name" = none →
        pyOr (cfgGet u "last_name" .vNone) (.vStr "") = .vStr "")) := by
  constructor
  · intro hnm
    simp only [get_user]
    rw [findUser_no_match (basename selfPath) users hwf hnm]
  · intro hsplit hpre hm hpw
    subst hsplit
    have hff := findUser_found (basename selfPath) pre u post
      (fun y hy => hwf y (by simp [hy])) hpre hm
    unfold isUserMatch at hm
    rw [Bool.and_eq_true] at hm
    obtain ⟨hm1, hm2⟩ := hm
    cases hun : u.lookup "username" with
    | none => rw [cfgGet, hun] at hm2; simp [PyVal.eqStr] at hm2
    | some un =>
      rw [cfgGet, hun] at hm2
      cases un with
      | vStr t =>
        have ht : t = basename selfPath := by
          simpa [PyVal.eqStr] using hm2
        subst ht
        refine ⟨?_, ?_, ?_⟩
        · simp only [get_user]
          rw [hff]
          simp [cfgIndex, hun, hpw]
        · intro hfn; simp [cfgGet, hfn, pyOr, PyVal.truthy]
        · intro hln; simp [cfgGet, hln, pyOr, PyVal.truthy]
      | vNone => simp [PyVal.eqStr] at hm2
      | vBool b => simp [PyVal.eqStr] at hm2
      | vInt n => simp [PyVal.eqStr] at hm2
      | vFloat q => simp [PyVal.eqStr] at hm2
      | vList l => simp [PyVal.eqStr] at hm2
      | vDatetime q => simp [PyVal.eqStr] at hm2
      | vTimedelta q => simp [PyVal.eqStr] at hm2

/-- C8 witness: an admin entry with the same username is skipped; the
ordinary-user entry is returned with empty-string first name; a path whose
trailing segment matches nobody yields the unknown-user error. -/
theorem C8_witness :
    (∀ x ∈ ([[("type", PyVal.vStr "admin"), ("username", .vStr "alice"),
          ("password", .vStr "adminpw")],
        [("type", .vStr "user"), ("username", .vStr "alice"),
          ("password", .vStr "pw"), ("last_name", .vStr "L")]] : List Config),
      (x.lookup "type").isSome = true ∧
      ((cfgGet x "type" .vNone).eqStr "user" = true →
        (x.lookup "username").isSome = true)) ∧
    get_user "contest/alice"
      [[("type", .vStr "admin"), ("username", .vStr "alice"),
          ("password", .vStr "adminpw")],
        [("type", .vStr "user"), ("username", .vStr "alice"),
          ("password", .vStr "pw"), ("last_name", .vStr "L")]]
      = .ok {
          username := .vStr (basename "contest/alice"),
          password := ⟨.vStr "pw"⟩,
          first_name := pyOr (cfgGet [("type", PyVal.vStr "user"),
            ("username", .vStr "alice"), ("password", .vStr "pw"),
            ("last_name", .vStr "L")] "first_name" .vNone) (.vStr ""),
          last_name := pyOr (cfgGet [("type", PyVal.vStr "user"),
            ("username", .vStr "alice"), ("password", .vStr "pw"),
            ("last_name", .vStr "L")] "last_name" .vNone) (.vStr ""),
          timezone := cfgGet [("type", PyVal.vStr "user"),
            ("username", .vStr "alice"), ("password", .vStr "pw"),
            ("last_name", .vStr "L")] "timezone" .vNone } := by
  have hwf : ∀ x ∈ ([[("type", PyVal.vStr "admin"), ("username", .vStr "alice"),
        ("password", .vStr "adminpw")],
      [("type", .vStr "user"), ("username", .vStr "alice"),
        ("password", .vStr "pw"), ("last_name", .vStr "L")]] : List Config),
      (x.lookup "type").isSome = true ∧
      ((cfgGet x "type" .vNone).eqStr "user" = true →
        (x.lookup "username").isSome = true) := by decide
  refine ⟨hwf, ?_⟩
  exact ((C8_get_user_lookup "contest/alice" _
      [[("type", .vStr "admin"), ("username", .vStr "alice"),
        ("password", .vStr "adminpw")]]
      []
      [("type", .vStr "user"), ("username", .vStr "alice"),
        ("password", .vStr "pw"), ("last_name", .vStr "L")]
      (.vStr "pw") hwf).2 rfl (by decide) (by decide) rfl).1

/-! ### Test-scan machinery: splitext facts -/

/-- Structure eta for strings. -/
theorem mk_data (s : String) : String.mk s.data = s := rfl

/-- Splitting never loses characters. -/
theorem splitextChars_append (cs : List Char) :
    (splitextChars cs).1 ++ (splitextChars cs).2 = cs := by
  simp only [splitextChars]
  split
  · simp
  · split
    · simp
    · simp

/-- `splitext` splits a name into stem and extension whose concatenation
is the name. -/
theorem splitext_fst_append_snd (f : String) :
    (splitext f).1 ++ (splitext f).2 = f := by
  apply String.ext
  simp [splitext, splitextChars_append]

/-- A file whose split is known is literally stem ++ extension. -/
theorem eq_of_splitext (f s e : String) (h : splitext f = (s, e)) :
    f = s ++ e := by
  have := splitext_fst_append_snd f
  rw [h] at this
  exact this.symm

theorem takeWhile_append_stop {α : Type} {p : α → Bool} :
    ∀ (xs : List α) (y : α) (ys : List α), (∀ x ∈ xs, p x = true) →
      p y = false → List.takeWhile p (xs ++ y :: ys) = xs
  | [], y, ys, _, hy => by simp [List.takeWhile_cons, hy]
  | x :: xs, y, ys, hx, hy => by
    simp only [List.cons_append, List.takeWhile_cons, hx x (by simp),
      takeWhile_append_stop xs y ys (fun z hz => hx z (by simp [hz])) hy]
    simp

/-- Splitting `cs ++ '.' :: t` for a dot-free `t`: either the split is at
that final dot, or everything before it is dots and there is no
extension. -/
theorem splitextChars_app (cs t : List Char) (hnd : ∀ c ∈ t, c ≠ '.') :
    splitextChars (cs ++ '.' :: t) = (cs, '.' :: t) ∨
    splitextChars (cs ++ '.' :: t) = (cs ++ '.' :: t, []) := by
  have hrev : (cs ++ '.' :: t).reverse = t.reverse ++ '.' :: cs.reverse := by
    simp [List.reverse_append]
  have htw : List.takeWhile (fun c => decide (c ≠ '.'))
      (t.reverse ++ '.' :: cs.reverse) = t.reverse := by
    apply takeWhile_append_stop
    · intro x hx
      simpa using hnd x (List.mem_reverse.mp hx)
    · simp
  simp only [splitextChars, hrev, htw]
  have hlen : ¬ (t.reverse.length = (t.reverse ++ '.' :: cs.reverse).length) := by
    simp
  rw [if_neg hlen]
  have hi : (cs ++ '.' :: t).length - t.reverse.length - 1 = cs.length := by
    simp
    omega
  rw [hi, List.take_left' rfl, List.drop_left' rfl]
  split
  · right; rfl
  · left; rfl

/-- `splitext (s ++ ".in")` is `(s, ".in")` unless `s` is all dots (in
which case there is no extension at all). -/
theorem splitext_app_in (s : String) :
    splitext (s ++ ".in") = (s, ".in") ∨
    splitext (s ++ ".in") = (s ++ ".in", "") := by
  have hd : (s ++ ".in").data = s.data ++ '.' :: ['i', 'n'] := by
    simp [String.data_append]
  have h := splitextChars_app s.data ['i', 'n']
    (by intro c hc; fin_cases hc <;> decide)
  unfold splitext
  rw [hd]
  rcases h with h | h
  · left; rw [h]
  · right
    rw [h]
    refine Prod.ext ?_ rfl
    apply String.ext
    simp [String.data_append]

/-- `splitext (s ++ ".ans")` analogue of `splitext_app_in`. -/
theorem splitext_app_ans (s : String) :
    splitext (s ++ ".ans") = (s, ".ans") ∨
    splitext (s ++ ".ans") = (s ++ ".ans", "") := by
  have hd : (s ++ ".ans").data = s.data ++ '.' :: ['a', 'n', 's'] := by
    simp [String.data_append]
  have h := splitextChars_app s.data ['a', 'n', 's']
    (by intro c hc; fin_cases hc <;> decide)
  unfold splitext
  rw [hd]
  rcases h with h | h
  · left; rw [h]
  · right
    rw [h]
    refine Prod.ext ?_ rfl
    apply String.ext
    simp [String.data_append]

/-- Appending a nonempty extension never produces the empty string. -/
theorem append_in_ne_empty (s : String) : s ++ ".in" ≠ "" := by
  intro h
  have := congrArg String.data h
  simp [String.data_append] at this

theorem append_ans_ne_empty (s : String) : s ++ ".ans" ≠ "" := by
  intro h
  have := congrArg String.data h
  simp [String.data_append] at this

/-! ### Test-scan machinery: the accumulator as a finite map -/

theorem setInput_lookup (b f s : String) : ∀ m : List (String × IOPair),
    (setInput m b f).lookup s =
      if s = b then some ⟨some f, ((m.lookup b).getD ⟨none, none⟩).output⟩
      else m.lookup s
  | [] => by
    by_cases h : s = b
    · subst h; simp [setInput]
    · have hb : (s == b) = false := beq_eq_false_iff_ne.mpr h
      simp [setInput, List.lookup_cons, hb, h]
  | (k, p) :: rest => by
    have ih := setInput_lookup b f s rest
    by_cases hkb : k = b
    · subst hkb
      by_cases hsk : s = k
      · subst hsk; simp [setInput]
      · have h1 : (s == k) = false := beq_eq_false_iff_ne.mpr hsk
        simp [setInput, List.lookup_cons, h1, hsk]
    · have hbk : (b == k) = false := beq_eq_false_iff_ne.mpr (fun hh => hkb hh.symm)
      by_cases hsk : s = k
      · subst hsk
        have hsb : ¬ s = b := hkb
        simp [setInput, hkb, List.lookup_cons, hsb]
      · have h1 : (s == k) = false := beq_eq_false_iff_ne.mpr hsk
        simp [setInput, hkb, List.lookup_cons, h1, ih, hbk]

theorem setOutput_lookup (b f s : String) : ∀ m : List (String × IOPair),
    (setOutput m b f).lookup s =
      if s = b then some ⟨((m.lookup b).getD ⟨none, none⟩).input, some f⟩
      else m.lookup s
  | [] => by
    by_cases h : s = b
    · subst h; simp [setOutput]
    · have hb : (s == b) = false := beq_eq_false_iff_ne.mpr h
      simp [setOutput, List.lookup_cons, hb, h]
  | (k, p) :: rest => by
    have ih := setOutput_lookup b f s rest
    by_cases hkb : k = b
    · subst hkb
      by_cases hsk : s = k
      · subst hsk; simp [setOutput]
      · have h1 : (s == k) = false := beq_eq_false_iff_ne.mpr hsk
        simp [setOutput, List.lookup_cons, h1, hsk]
    · have hbk : (b == k) = false := beq_eq_false_iff_ne.mpr (fun hh => hkb hh.symm)
      by_cases hsk : s = k
      · subst hsk
        have hsb : ¬ s = b := hkb
        simp [setOutput, hkb, List.lookup_cons, hsb]
      · have h1 : (s == k) = false := beq_eq_false_iff_ne.mpr hsk
        simp [setOutput, hkb, List.lookup_cons, h1, ih, hbk]

theorem setInput_keys (b f : String) : ∀ m : List (String × IOPair),
    (setInput m b f).map Prod.fst =
      if (m.lookup b).isSome then m.map Prod.fst else m.map Prod.fst ++ [b]
  | [] => by simp [setInput]
  | (k, p) :: rest => by
    have ih := setInput_keys b f rest
    by_cases hkb : k = b
    · subst hkb; simp [setInput]
    · have hbk : (b == k) = false := beq_eq_false_iff_ne.mpr (fun hh => hkb hh.symm)
      cases hl : (rest.lookup b).isSome with
      | true => simp [setInput, hkb, List.lookup_cons, hbk, hl, ih]
      | false => simp [setInput, hkb, List.lookup_cons, hbk, hl, ih]

theorem setOutput_keys (b f : String) : ∀ m : List (String × IOPair),
    (setOutput m b f).map Prod.fst =
      if (m.lookup b).isSome then m.map Prod.fst else m.map Prod.fst ++ [b]
  | [] => by simp [setOutput]
  | (k, p) :: rest => by
    have ih := setOutput_keys b f rest
    by_cases hkb : k = b
    · subst hkb; simp [setOutput]
    · have hbk : (b == k) = false := beq_eq_false_iff_ne.mpr (fun hh => hkb hh.symm)
      cases hl : (rest.lookup b).isSome with
      | true => simp [setOutput, hkb, List.lookup_cons, hbk, hl, ih]
      | false => simp [setOutput, hkb, List.lookup_cons, hbk, hl, ih]

theorem setInput_nodup_keys (b f : String) (m : List (String × IOPair))
    (h : (m.map Prod.fst).Nodup) : ((setInput m b f).map Prod.fst).Nodup := by
  rw [setInput_keys]
  cases hl : (m.lookup b).isSome with
  | true => simpa using h
  | false =>
    have hb : b ∉ m.map Prod.fst := by
      rw [Bool.eq_false_iff] at hl
      intro hmem
      exact hl (List.lookup_isSome_iff.mpr (by
        obtain ⟨⟨k, v⟩, hk, he⟩ := List.mem_map.mp hmem
        exact ⟨(k, v), hk, by simp [← he]⟩))
    simp [List.nodup_append, h, hb]

theorem setOutput_nodup_keys (b f : String) (m : List (String × IOPair))
    (h : (m.map Prod.fst).Nodup) : ((setOutput m b f).map Prod.fst).Nodup := by
  rw [setOutput_keys]
  cases hl : (m.lookup b).isSome with
  | true => simpa using h
  | false =>
    have hb : b ∉ m.map Prod.fst := by
      rw [Bool.eq_false_iff] at hl
      intro hmem
      exact hl (List.lookup_isSome_iff.mpr (by
        obtain ⟨⟨k, v⟩, hk, he⟩ := List.mem_map.mp hmem
        exact ⟨(k, v), hk, by simp [← he]⟩))
    simp [List.nodup_append, h, hb]

theorem hasStemExt_nil (s e : String) : ¬ hasStemExt [] s e := by
  simp [hasStemExt]

theorem hasStemExt_cons (f : String) (l : List String) (s e : String) :
    hasStemExt (f :: l) s e ↔ splitext f = (s, e) ∨ hasStemExt l s e := by
  simp [hasStemExt]

theorem canonPair_congr (l₁ l₂ : List String) (a₁ a₂ : Option IOPair) (s : String)
    (hin : hasStemExt l₁ s ".in" ↔ hasStemExt l₂ s ".in")
    (hans : hasStemExt l₁ s ".ans" ↔ hasStemExt l₂ s ".ans")
    (ha : a₁ = a₂) : canonPair l₁ a₁ s = canonPair l₂ a₂ s := by
  subst ha
  simp only [canonPair, hin, hans]

/-- The scan of a listing of slash-free `.in`/`.ans` files succeeds, and
the resulting accumulator, read as a finite map, is `canonPair` of the
file set: each stem's slots are functions of file membership only, so the
map is independent of the enumeration order.  Key distinctness is
preserved. -/
theorem buildBases_char : ∀ (l : List String) (acc : List (String × IOPair)),
    (∀ f ∈ l, basename f = f) →
    (∀ f ∈ l, (splitext f).2 = ".in" ∨ (splitext f).2 = ".ans") →
    ∃ m, buildBases l acc = .ok m ∧
      (∀ s, m.lookup s = canonPair l (acc.lookup s) s) ∧
      ((acc.map Prod.fst).Nodup → (m.map Prod.fst).Nodup)
  | [], acc, _, _ => by
    refine ⟨acc, rfl, fun s => ?_, id⟩
    cases ha : acc.lookup s with
    | none => simp [canonPair, hasStemExt_nil]
    | some p => cases p; simp [canonPair, hasStemExt_nil]
  | f :: l, acc, hb, he => by
    have hbf : basename f = f := hb f (by simp)
    have hsplit := splitext_fst_append_snd f
    rcases he f (by simp) with hef | hef
    · -- the file fills the `.in` slot of its stem
      have hsp : splitext f = ((splitext f).1, ".in") := by
        rw [← hef]
      have hfeq : f = (splitext f).1 ++ ".in" := by
        conv_lhs => rw [← hsplit, hef]
      obtain ⟨m, h1, h2, h3⟩ := buildBases_char l (setInput acc (splitext f).1 f)
        (fun g hg => hb g (by simp [hg])) (fun g hg => he g (by simp [hg]))
      refine ⟨m, ?_, ?_, fun hacc => h3 (setInput_nodup_keys _ _ _ hacc)⟩
      · have hred : buildBases (f :: l) acc
            = buildBases l (setInput acc (splitext f).1 f) := by
          simp [buildBases, hbf, hef]
        rw [hred, h1]
      · intro s
        rw [h2 s, setInput_lookup]
        by_cases hs : s = (splitext f).1
        · subst hs
          have hin : hasStemExt (f :: l) (splitext f).1 ".in" :=
            ⟨f, by simp, hsp⟩
          have hans : hasStemExt (f :: l) (splitext f).1 ".ans" ↔
              hasStemExt l (splitext f).1 ".ans" := by
            rw [hasStemExt_cons]
            have hne : ¬ (splitext f = ((splitext f).1, ".ans")) := by
              rw [hsp]
              intro hco
              have := congrArg Prod.snd hco
              simp at this
            simp [hne]
          rw [if_pos rfl]
          simp only [canonPair, hin, hans, Option.isSome_some, or_true,
            true_or, if_true, Option.getD_some]
          simp [← hfeq, ite_self]
        · have hin : hasStemExt (f :: l) s ".in" ↔ hasStemExt l s ".in" := by
            rw [hasStemExt_cons]
            have : ¬ (splitext f = (s, ".in")) := by
              rw [hsp]
              intro hco
              have := congrArg Prod.fst hco
              simp at this
              exact hs this.symm
            simp [this]
          have hans : hasStemExt (f :: l) s ".ans" ↔ hasStemExt l s ".ans" := by
            rw [hasStemExt_cons]
            have : ¬ (splitext f = (s, ".ans")) := by
              rw [hsp]
              intro hco
              have := congrArg Prod.fst hco
              simp at this
              exact hs this.symm
            simp [this]
          rw [if_neg hs]
          exact canonPair_congr l (f :: l) _ _ s hin.symm hans.symm rfl
    · -- the file fills the `.ans` slot of its stem
      have hsp : splitext f = ((splitext f).1, ".ans") := by
        rw [← hef]
      have hfeq : f = (splitext f).1 ++ ".ans" := by
        conv_lhs => rw [← hsplit, hef]
      obtain ⟨m, h1, h2, h3⟩ := buildBases_char l (setOutput acc (splitext f).1 f)
        (fun g hg => hb g (by simp [hg])) (fun g hg => he g (by simp [hg]))
      refine ⟨m, ?_, ?_, fun hacc => h3 (setOutput_nodup_keys _ _ _ hacc)⟩
      · have hred : buildBases (f :: l) acc
            = buildBases l (setOutput acc (splitext f).1 f) := by
          simp [buildBases, hbf, hef]
        rw [hred, h1]
      · intro s
        rw [h2 s, setOutput_lookup]
        by_cases hs : s = (splitext f).1
        · subst hs
          have hans : hasStemExt (f :: l) (splitext f).1 ".ans" :=
            ⟨f, by simp, hsp⟩
          have hin : hasStemExt (f :: l) (splitext f).1 ".in" ↔
              hasStemExt l (splitext f).1 ".in" := by
            rw [hasStemExt_cons]
            have hne : ¬ (splitext f = ((splitext f).1, ".in")) := by
              rw [hsp]
              intro hco
              have := congrArg Prod.snd hco
              simp at this
            simp [hne]
          rw [if_pos rfl]
          simp only [canonPair, hans, hin, Option.isSome_some, or_true,
            true_or, if_true, Option.getD_some]
          simp [← hfeq, ite_self]
        · have hin : hasStemExt (f :: l) s ".in" ↔ hasStemExt l s ".in" := by
            rw [hasStemExt_cons]
            have : ¬ (splitext f = (s, ".in")) := by
              rw [hsp]
              intro hco
              have := congrArg Prod.fst hco
              simp at this
              exact hs this.symm
            simp [this]
          have hans : hasStemExt (f :: l) s ".ans" ↔ hasStemExt l s ".ans" := by
            rw [hasStemExt_cons]
            have : ¬ (splitext f = (s, ".ans")) := by
              rw [hsp]
              intro hco
              have := congrArg Prod.fst hco
              simp at this
              exact hs this.symm
            simp [this]
          rw [if_neg hs]
          exact canonPair_congr l (f :: l) _ _ s hin.symm hans.symm rfl

/-! ### Ordering and sorting facts -/

theorem charListLe_total : ∀ a b : List Char,
    charListLe a b = true ∨ charListLe b a = true
  | [], _ => Or.inl rfl
  | _ :: _, [] => Or.inr rfl
  | a :: as, b :: bs => by
    rcases Nat.lt_trichotomy a.toNat b.toNat with h | h | h
    · left; simp [charListLe, h]
    · have h1 : ¬ a.toNat < b.toNat := by omega
      have h2 : ¬ b.toNat < a.toNat := by omega
      rcases charListLe_total as bs with ih | ih
      · left; simp [charListLe, h1, h2, ih]
      · right; simp [charListLe, h1, h2, ih]
    · right; simp [charListLe, h]

theorem charListLe_trans : ∀ a b c : List Char, charListLe a b = true →
    charListLe b c = true → charListLe a c = true
  | [], _, _, _, _ => rfl
  | _ :: _, [], _, h, _ => by simp [charListLe] at h
  | _ :: _, _ :: _, [], _, h => by simp [charListLe] at h
  | a :: as, b :: bs, c :: cs, h1, h2 => by
    simp only [charListLe] at h1 h2 ⊢
    by_cases hab : a.toNat < b.toNat
    · by_cases hbc : b.toNat < c.toNat
      · have hac : a.toNat < c.toNat := by omega
        simp [hac]
      · by_cases hcb : c.toNat < b.toNat
        · rw [if_neg hbc, if_pos hcb] at h2
          exact absurd h2 (by simp)
        · have hac : a.toNat < c.toNat := by omega
          simp [hac]
    · by_cases hba : b.toNat < a.toNat
      · rw [if_neg hab, if_pos hba] at h1
        exact absurd h1 (by simp)
      · by_cases hbc : b.toNat < c.toNat
        · have hac : a.toNat < c.toNat := by omega
          simp [hac]
        · by_cases hcb : c.toNat < b.toNat
          · rw [if_neg hbc, if_pos hcb] at h2
            exact absurd h2 (by simp)
          · have hac1 : ¬ a.toNat < c.toNat := by omega
            have hac2 : ¬ c.toNat < a.toNat := by omega
            rw [if_neg hab, if_neg hba] at h1
            rw [if_neg hbc, if_neg hcb] at h2
            simp only [if_neg hac1, if_neg hac2]
            exact charListLe_trans as bs cs h1 h2

theorem charListLe_antisymm : ∀ a b : List Char, charListLe a b = true →
    charListLe b a = true → a = b
  | [], [], _, _ => rfl
  | [], _ :: _, _, h => by simp [charListLe] at h
  | _ :: _, [], h, _ => by simp [charListLe] at h
  | a :: as, b :: bs, h1, h2 => by
    simp only [charListLe] at h1 h2
    by_cases hab : a.toNat < b.toNat
    · have hba : ¬ b.toNat < a.toNat := by omega
      rw [if_neg hba, if_pos hab] at h2
      exact absurd h2 (by simp)
    · by_cases hba : b.toNat < a.toNat
      · rw [if_neg hab, if_pos hba] at h1
        exact absurd h1 (by simp)
      · rw [if_neg hab, if_neg hba] at h1
        rw [if_neg hba, if_neg hab] at h2
        have hab2 : a.toNat = b.toNat := by omega
        have hc : a = b := Char.eq_of_val_eq (UInt32.toNat.inj hab2)
        rw [hc, charListLe_antisymm as bs h1 h2]

theorem strLe_antisymm (a b : String) (h1 : strLe a b = true)
    (h2 : strLe b a = true) : a = b :=
  String.ext (charListLe_antisymm _ _ h1 h2)

theorem stemLe_total (x y : String × IOPair) :
    stemLe x y = true ∨ stemLe y x = true :=
  charListLe_total _ _

theorem stemLe_trans (x y z : String × IOPair) (h1 : stemLe x y = true)
    (h2 : stemLe y z = true) : stemLe x z = true :=
  charListLe_trans _ _ _ h1 h2

theorem insortBy_perm {α : Type} (le : α → α → Bool) (a : α) :
    ∀ l : List α, List.Perm (insortBy le a l) (a :: l)
  | [] => List.Perm.refl _
  | b :: bs => by
    simp only [insortBy]
    split
    · exact List.Perm.refl _
    · exact ((insortBy_perm le a bs).cons b).trans (List.Perm.swap a b bs)

theorem sortBy_perm {α : Type} (le : α → α → Bool) :
    ∀ l : List α, List.Perm (sortBy le l) l
  | [] => List.Perm.refl _
  | a :: as => (insortBy_perm le a (sortBy le as)).trans
      ((sortBy_perm le as).cons a)

theorem insortBy_sorted {α : Type} (le : α → α → Bool)
    (htrans : ∀ x y z, le x y = true → le y z = true → le x z = true)
    (htot : ∀ x y, le x y = true ∨ le y x = true) (a : α) :
    ∀ l : List α, l.Pairwise (fun x y => le x y = true) →
      (insortBy le a l).Pairwise (fun x y => le x y = true)
  | [], _ => by simp [insortBy]
  | b :: bs, hp => by
    obtain ⟨hb, hbs⟩ := List.pairwise_cons.mp hp
    simp only [insortBy]
    by_cases hab : le a b = true
    · rw [if_pos hab]
      refine List.pairwise_cons.mpr ⟨?_, hp⟩
      intro x hx
      rcases List.mem_cons.mp hx with rfl | hx
      · exact hab
      · exact htrans a b x hab (hb x hx)
    · rw [if_neg hab]
      have hba : le b a = true := (htot a b).resolve_left hab
      refine List.pairwise_cons.mpr
        ⟨?_, insortBy_sorted le htrans htot a bs hbs⟩
      intro x hx
      have hx' : x ∈ a :: bs := (insortBy_perm le a bs).subset hx
      rcases List.mem_cons.mp hx' with rfl | hx'
      · exact hba
      · exact hb x hx'

theorem sortBy_sorted {α : Type} (le : α → α → Bool)
    (htrans : ∀ x y z, le x y = true → le y z = true → le x z = true)
    (htot : ∀ x y, le x y = true ∨ le y x = true) :
    ∀ l : List α, (sortBy le l).Pairwise (fun x y => le x y = true)
  | [] => by simp [sortBy]
  | a :: as => insortBy_sorted le htrans htot a _
      (sortBy_sorted le htrans htot as)

/-- Two sorted lists that are permutations of each other under an
asymmetric strict order are equal. -/
theorem eq_of_perm_of_pairwise_asym {α : Type} (r : α → α → Prop)
    (hasym : ∀ x y, r x y → r y x → False) :
    ∀ (l₁ l₂ : List α), List.Perm l₁ l₂ → l₁.Pairwise r → l₂.Pairwise r → l₁ = l₂
  | [], l₂, h, _, _ => h.nil_eq
  | a :: t, l₂, h, hp1, hp2 => by
    cases l₂ with
    | nil =>
      have := h.length_eq
      simp at this
    | cons b t₂ =>
      by_cases hab : a = b
      · subst hab
        rw [eq_of_perm_of_pairwise_asym r hasym t t₂ h.cons_inv
          (List.pairwise_cons.mp hp1).2 (List.pairwise_cons.mp hp2).2]
      · have ha2 : a ∈ b :: t₂ := h.subset (by simp)
        have hb1 : b ∈ a :: t := h.symm.subset (by simp)
        have ha2' : a ∈ t₂ := by
          rcases List.mem_cons.mp ha2 with h' | h'
          · exact absurd h' hab
          · exact h'
        have hb1' : b ∈ t := by
          rcases List.mem_cons.mp hb1 with h' | h'
          · exact absurd h'.symm hab
          · exact h'
        exact absurd ((List.pairwise_cons.mp hp1).1 b hb1')
          (fun hr => hasym _ _ hr ((List.pairwise_cons.mp hp2).1 a ha2'))

/-- In a key-distinct association list, membership is lookup. -/
theorem mem_iff_lookup {β : Type} : ∀ (m : List (String × β)),
    (m.map Prod.fst).Nodup → ∀ (s : String) (p : β),
    ((s, p) ∈ m ↔ m.lookup s = some p)
  | [], _, s, p => by simp
  | (k, v) :: rest, h, s, p => by
    have h' : k ∉ rest.map Prod.fst ∧ (rest.map Prod.fst).Nodup := by
      simpa using h
    by_cases hsk : s = k
    · subst hsk
      rw [List.lookup_cons_self]
      simp only [List.mem_cons, Option.some.injEq]
      constructor
      · rintro (he | hm)
        · exact ((Prod.mk.injEq _ _ _ _ ▸ he).2).symm
        · exact absurd (List.mem_map_of_mem Prod.fst hm) h'.1
      · intro he
        left
        rw [he]
    · have hbeq : (s == k) = false := beq_eq_false_iff_ne.mpr hsk
      have ih := mem_iff_lookup rest h'.2 s p
      simp [List.lookup_cons, hbeq, Prod.mk.injEq, hsk, ih]

/-- The sorted items of two key-distinct maps with the same lookup
function coincide. -/
theorem sortBy_eq_of_lookup_eq (m₁ m₂ : List (String × IOPair))
    (h₁ : (m₁.map Prod.fst).Nodup) (h₂ : (m₂.map Prod.fst).Nodup)
    (hl : ∀ s, m₁.lookup s = m₂.lookup s) :
    sortBy stemLe m₁ = sortBy stemLe m₂ := by
  have hn₁ : m₁.Nodup := h₁.of_map
  have hn₂ : m₂.Nodup := h₂.of_map
  have hmm : ∀ x, x ∈ m₁ ↔ x ∈ m₂ := by
    rintro ⟨s, p⟩
    rw [mem_iff_lookup m₁ h₁ s p, mem_iff_lookup m₂ h₂ s p, hl s]
  have hperm : List.Perm m₁ m₂ := (List.perm_ext_iff_of_nodup hn₁ hn₂).mpr hmm
  have hk₁ : ((sortBy stemLe m₁).map Prod.fst).Nodup :=
    (((sortBy_perm stemLe m₁).map Prod.fst).nodup_iff).mpr h₁
  have hk₂ : ((sortBy stemLe m₂).map Prod.fst).Nodup :=
    (((sortBy_perm stemLe m₂).map Prod.fst).nodup_iff).mpr h₂
  have hstrict₁ : (sortBy stemLe m₁).Pairwise
      (fun x y => stemLe x y = true ∧ x.1 ≠ y.1) :=
    (sortBy_sorted stemLe stemLe_trans stemLe_total m₁).and
      (List.pairwise_map.mp hk₁)
  have hstrict₂ : (sortBy stemLe m₂).Pairwise
      (fun x y => stemLe x y = true ∧ x.1 ≠ y.1) :=
    (sortBy_sorted stemLe stemLe_trans stemLe_total m₂).and
      (List.pairwise_map.mp hk₂)
  exact eq_of_perm_of_pairwise_asym _
    (fun x y hxy hyx => hxy.2 (strLe_antisymm _ _ hxy.1 hyx.1))
    _ _ ((sortBy_perm stemLe m₁).trans
      (hperm.trans (sortBy_perm stemLe m₂).symm))
    hstrict₁ hstrict₂

/-! ### Consequences of the scan characterization -/

/-- Specialization of `buildBases_char` to the empty accumulator. -/
theorem buildBases_spec (l : List String)
    (hb : ∀ f ∈ l, basename f = f)
    (he : ∀ f ∈ l, (splitext f).2 = ".in" ∨ (splitext f).2 = ".ans") :
    ∃ m, buildBases l [] = .ok m ∧
      (∀ s, m.lookup s = canonPair l none s) ∧
      (m.map Prod.fst).Nodup := by
  obtain ⟨m, h1, h2, h3⟩ := buildBases_char l [] hb he
  exact ⟨m, h1, fun s => h2 s, h3 (by simp)⟩

/-- A membership witness with extension `.in` for a stem whose `.in` file
is listed (ruling out the degenerate all-dots stem via the extension
validity of the listing). -/
theorem hasStemExt_of_mem_in (l : List String) (s : String)
    (he : ∀ f ∈ l, (splitext f).2 = ".in" ∨ (splitext f).2 = ".ans")
    (hmem : (s ++ ".in") ∈ l) : hasStemExt l s ".in" := by
  rcases splitext_app_in s with h | h
  · exact ⟨s ++ ".in", hmem, h⟩
  · rcases he (s ++ ".in") hmem with h' | h' <;>
      · rw [h] at h'
        simp at h'

theorem hasStemExt_of_mem_ans (l : List String) (s : String)
    (he : ∀ f ∈ l, (splitext f).2 = ".in" ∨ (splitext f).2 = ".ans")
    (hmem : (s ++ ".ans") ∈ l) : hasStemExt l s ".ans" := by
  rcases splitext_app_ans s with h | h
  · exact ⟨s ++ ".ans", hmem, h⟩
  · rcases he (s ++ ".ans") hmem with h' | h' <;>
      · rw [h] at h'
        simp at h'

/-- Under the completeness hypothesis every entry of the scanned map has
both slots filled with nonempty filenames. -/
theorem entries_complete (l : List String) (m : List (String × IOPair))
    (he : ∀ f ∈ l, (splitext f).2 = ".in" ∨ (splitext f).2 = ".ans")
    (hc : ∀ f ∈ l, ((splitext f).1 ++ ".in") ∈ l ∧ ((splitext f).1 ++ ".ans") ∈ l)
    (hchar : ∀ s, m.lookup s = canonPair l none s)
    (hnd : (m.map Prod.fst).Nodup) :
    ∀ kp ∈ m, (optTruthy kp.2.input && optTruthy kp.2.output) = true := by
  rintro ⟨s, p⟩ hm
  have hlk : m.lookup s = some p := (mem_iff_lookup m hnd s p).mp hm
  rw [hchar s] at hlk
  unfold canonPair at hlk
  by_cases hcond : hasStemExt l s ".in" ∨ hasStemExt l s ".ans" ∨
      (none : Option IOPair).isSome
  · rw [if_pos hcond] at hlk
    have hboth : hasStemExt l s ".in" ∧ hasStemExt l s ".ans" := by
      rcases hcond with h4 | h4 | h4
      · obtain ⟨f, hf, hsp⟩ := h4
        have hstem : (splitext f).1 = s := by rw [hsp]
        have hansmem : (s ++ ".ans") ∈ l := by
          have := (hc f hf).2
          rwa [hstem] at this
        exact ⟨⟨f, hf, hsp⟩, hasStemExt_of_mem_ans l s he hansmem⟩
      · obtain ⟨f, hf, hsp⟩ := h4
        have hstem : (splitext f).1 = s := by rw [hsp]
        have hinmem : (s ++ ".in") ∈ l := by
          have := (hc f hf).1
          rwa [hstem] at this
        exact ⟨hasStemExt_of_mem_in l s he hinmem, ⟨f, hf, hsp⟩⟩
      · simp at h4
    have hp : p = ⟨some (s ++ ".in"), some (s ++ ".ans")⟩ := by
      have := hlk
      rw [if_pos hboth.1, if_pos hboth.2] at this
      simp at this
      exact this.symm
    rw [hp]
    simp [optTruthy, append_in_ne_empty s, append_ans_ne_empty s]
  · rw [if_neg hcond] at hlk
    simp at hlk
  -- (the negative branch is impossible: `none ≠ some p`)

/-- The scanned map's keys are exactly the stems of the listing. -/
theorem keys_iff_stem (l : List String) (m : List (String × IOPair))
    (he : ∀ f ∈ l, (splitext f).2 = ".in" ∨ (splitext f).2 = ".ans")
    (hchar : ∀ s, m.lookup s = canonPair l none s) (s : String) :
    s ∈ m.map Prod.fst ↔ ∃ f ∈ l, (splitext f).1 = s := by
  have h1 : s ∈ m.map Prod.fst ↔ (m.lookup s).isSome := by
    rw [List.lookup_isSome_iff]
    constructor
    · intro hmem
      obtain ⟨⟨k, v⟩, hk, hke⟩ := List.mem_map.mp hmem
      exact ⟨(k, v), hk, by simp [← hke]⟩
    · rintro ⟨⟨k, v⟩, hk, hke⟩
      rw [beq_iff_eq] at hke
      exact List.mem_map.mpr ⟨(k, v), hk, hke.symm⟩
  rw [h1, hchar s]
  unfold canonPair
  by_cases hcond : hasStemExt l s ".in" ∨ hasStemExt l s ".ans" ∨
      (none : Option IOPair).isSome
  · rw [if_pos hcond]
    simp only [Option.isSome_some, true_iff]
    rcases hcond with h4 | h4 | h4
    · obtain ⟨f, hf, hsp⟩ := h4
      exact ⟨f, hf, by rw [hsp]⟩
    · obtain ⟨f, hf, hsp⟩ := h4
      exact ⟨f, hf, by rw [hsp]⟩
    · simp at h4
  · rw [if_neg hcond]
    simp only [Option.isSome_none, Bool.false_eq_true, false_iff]
    rintro ⟨f, hf, hstem⟩
    apply hcond
    rcases he f hf with h' | h'
    · exact Or.inl ⟨f, hf, by rw [← hstem, ← h']⟩
    · exact Or.inr (Or.inl ⟨f, hf, by rw [← hstem, ← h']⟩)

/-- A nonempty valid listing scans to a nonempty map. -/
theorem scanned_ne_nil (l : List String) (m : List (String × IOPair))
    (he : ∀ f ∈ l, (splitext f).2 = ".in" ∨ (splitext f).2 = ".ans")
    (hchar : ∀ s, m.lookup s = canonPair l none s)
    (hl : l ≠ []) : m ≠ [] := by
  obtain ⟨f, hf⟩ := List.exists_mem_of_ne_nil l hl
  intro hm
  have h4 : hasStemExt l (splitext f).1 ".in" ∨
      hasStemExt l (splitext f).1 ".ans" ∨ (none : Option IOPair).isSome := by
    rcases he f hf with h' | h'
    · exact Or.inl ⟨f, hf, by rw [← h']⟩
    · exact Or.inr (Or.inl ⟨f, hf, by rw [← h']⟩)
  have := hchar (splitext f).1
  rw [hm] at this
  unfold canonPair at this
  rw [if_pos h4] at this
  simp at this

/-- The success shape of `_create_and_attach_dataset`: once the scan
succeeds with a complete nonempty map, parameters resolve and the time
limit coerces, the function returns exactly the record built from the
checker/manager steps and the sorted testcases. -/
theorem createDataset_eq (fc : Fc) (fs : Fs) (selfPath : String)
    (cfg : Config) (task : Task) (m : List (String × IOPair)) (tl : Rat)
    (params : Option PyVal)
    (hbb : buildBases (fs.listdir (joinPath selfPath "tests")) [] = .ok m)
    (hcomplete : ∀ kp ∈ m, (optTruthy kp.2.input && optTruthy kp.2.output) = true)
    (hne : m ≠ [])
    (hpp : datasetParams cfg (checker_step fc fs selfPath task.name.pyStr).2.2
      = .ok params)
    (htl : pyFloat (cfgGet cfg "time_limit" (.vInt 3)) = .ok tl) :
    _create_and_attach_dataset fc fs selfPath cfg task =
      ((checker_step fc fs selfPath task.name.pyStr).1 ++
        (manager_step fc fs selfPath task.name.pyStr).1 ++
        (loadTestcases fc (joinPath selfPath "tests") task.name.pyStr
          (sortBy stemLe m)).1,
       .ok {
        task := task,
        description := "Default",
        task_type := cfgGet cfg "task_type" (.vStr "Batch"),
        score_type := cfgGet cfg "score_type" (.vStr "Sum"),
        score_type_parameters := cfgGet cfg "score_type_parameters" (.vInt 100),
        autojudge := cfgGet cfg "autojudge" (.vBool true),
        time_limit := tl,
        memory_limit := cfgGet cfg "memory_limit" (.vInt 536870912),
        managers := (checker_step fc fs selfPath task.name.pyStr).2.1 ++
          (manager_step fc fs selfPath task.name.pyStr).2,
        task_type_parameters := params,
        testcases := (loadTestcases fc (joinPath selfPath "tests")
          task.name.pyStr (sortBy stemLe m)).2 }) := by
  have hfilter : m.filter
      (fun kp => !(optTruthy kp.2.input && optTruthy kp.2.output)) = [] := by
    rw [List.filter_eq_nil_iff]
    intro kp hkp
    simp [hcomplete kp hkp]
  have hempty : m.isEmpty = false := by
    cases m with
    | nil => exact absurd rfl hne
    | cons a t => rfl
  simp only [_create_and_attach_dataset, hpp, hbb, hfilter, hempty]
  simp [htl, List.append_assoc]

/-- A `paramsOk` descriptor always resolves its task-type parameters. -/
theorem datasetParams_ok (cfg : Config) (ep : String)
    (h : paramsOk cfg = true) : ∃ params, datasetParams cfg ep = .ok params := by
  simp only [datasetParams]
  by_cases hB : (cfgGet cfg "task_type" (.vStr "Batch")).eqStr "Batch" = true
  · simp [hB]
  · rw [Bool.not_eq_true] at hB
    by_cases hC : (cfgGet cfg "task_type" (.vStr "Batch")).eqStr "Communication"
        = true
    · unfold paramsOk at h
      rw [hC] at h
      simp at h
      obtain ⟨h1, h2⟩ := h
      cases hn : cfg.lookup "node_count" with
      | none =>
        have hs : (cfg.lookup "node_count").isSome := List.lookup_isSome_iff.mpr
          (by obtain ⟨x, hx⟩ := h1; exact ⟨("node_count", x), hx, by simp⟩)
        rw [hn] at hs
        simp at hs
      | some nv =>
        cases hi : cfg.lookup "io_type" with
        | none =>
          have hs : (cfg.lookup "io_type").isSome := List.lookup_isSome_iff.mpr
            (by obtain ⟨x, hx⟩ := h2; exact ⟨("io_type", x), hx, by simp⟩)
          rw [hi] at hs
          simp at hs
        | some iv => simp [hB, hC, cfgIndex, hn, hi]
    · rw [Bool.not_eq_true] at hC
      simp [hB, hC]

/-- The evaluation parameter selected by the checker step. -/
theorem checker_step_param (fc : Fc) (fs : Fs) (selfPath nameStr : String) :
    (checker_step fc fs selfPath nameStr).2.2 =
      if fs.pathExists (joinPath selfPath "checker") then "comparator"
      else "diff" := by
  cases hcp : fs.pathExists (joinPath selfPath "checker") <;>
    simp [checker_step, hcp]

/-- C5: for a Batch-type task with a valid tests directory, the dataset's
`task_type_parameters` are `['alone', ['', ''], p]` with `p` driven by the
existence of a root-level `checker` file; when the checker exists it is
chmodded, stored, and registered under the `'checker'` manager key, and
when it is absent the build still succeeds (non-fatal warning) without a
`'checker'` manager. -/
theorem C5_batch_checker_parameters (fc : Fc) (fs : Fs) (selfPath : String)
    (cfg : Config) (task : Task)
    (htt : cfgGet cfg "task_type" (.vStr "Batch") = .vStr "Batch")
    (hb : ∀ f ∈ fs.listdir (joinPath selfPath "tests"), basename f = f)
    (he : ∀ f ∈ fs.listdir (joinPath selfPath "tests"),
      (splitext f).2 = ".in" ∨ (splitext f).2 = ".ans")
    (hc : ∀ f ∈ fs.listdir (joinPath selfPath "tests"),
      ((splitext f).1 ++ ".in") ∈ fs.listdir (joinPath selfPath "tests") ∧
      ((splitext f).1 ++ ".ans") ∈ fs.listdir (joinPath selfPath "tests"))
    (hl : fs.listdir (joinPath selfPath "tests") ≠ [])
    (htl : exceptOk (pyFloat (cfgGet cfg "time_limit" (.vInt 3))) = true) :
    exceptOk (_create_and_attach_dataset fc fs selfPath cfg task).2 = true ∧
    (getOkD (_create_and_attach_dataset fc fs selfPath cfg task).2
        datasetDefault).task_type_parameters
      = some (.vList [.vStr "alone", .vList [.vStr "", .vStr ""],
          .vStr (if fs.pathExists (joinPath selfPath "checker") then "comparator"
            else "diff")]) ∧
    (fs.pathExists (joinPath selfPath "checker") = true →
      FsEvent.chmod (joinPath selfPath "checker")
          ∈ (_create_and_attach_dataset fc fs selfPath cfg task).1 ∧
      FsEvent.put (joinPath selfPath "checker")
          ("Checker for Task: " ++ task.name.pyStr)
          ∈ (_create_and_attach_dataset fc fs selfPath cfg task).1 ∧
      ((getOkD (_create_and_attach_dataset fc fs selfPath cfg task).2
        datasetDefault).managers.lookup "checker"
        = some ⟨"checker", fc (joinPath selfPath "checker")⟩)) ∧
    (fs.pathExists (joinPath selfPath "checker") = false →
      ((getOkD (_create_and_attach_dataset fc fs selfPath cfg task).2
        datasetDefault).managers.lookup "checker" = none)) := by
  obtain ⟨m, hbb, hchar, hnd⟩ :=
    buildBases_spec (fs.listdir (joinPath selfPath "tests")) hb he
  have hcomplete := entries_complete _ m he hc hchar hnd
  have hne := scanned_ne_nil _ m he hchar hl
  obtain ⟨tl, htl'⟩ : ∃ tl, pyFloat (cfgGet cfg "time_limit" (.vInt 3))
      = .ok tl := by
    cases hx : pyFloat (cfgGet cfg "time_limit" (.vInt 3)) with
    | error e => rw [hx] at htl; simp [exceptOk] at htl
    | ok v => exact ⟨v, rfl⟩
  have hpp : datasetParams cfg (checker_step fc fs selfPath task.name.pyStr).2.2
      = .ok (some (.vList [.vStr "alone", .vList [.vStr "", .vStr ""],
        .vStr (checker_step fc fs selfPath task.name.pyStr).2.2])) := by
    simp only [datasetParams, htt]
    simp [PyVal.eqStr]
  have hres := createDataset_eq fc fs selfPath cfg task m tl _ hbb hcomplete
    hne hpp htl'
  rw [hres]
  refine ⟨rfl, ?_, ?_, ?_⟩
  · simp [getOkD, checker_step_param]
  · intro hcp
    refine ⟨?_, ?_, ?_⟩
    · simp [checker_step, hcp]
    · simp [checker_step, hcp]
    · simp [getOkD, checker_step, hcp, List.lookup_cons]
  · intro hcp
    simp only [getOkD]
    cases hmp : fs.pathExists (joinPath selfPath "manager") <;>
      simp [checker_step, manager_step, hcp, hmp, List.lookup_cons,
        beq_eq_false_iff_ne.mpr (by decide : ("checker" : String) ≠ "manager")]

/-- C5 witness: a Batch task over a one-case tests directory, with the
checker present (comparator) — the absent-checker side is exercised with
the same listing through the `false` branch hypothesis being vacuous. -/
theorem C5_witness :
    cfgGet [("task_type", PyVal.vStr "Batch")] "task_type" (.vStr "Batch")
      = .vStr "Batch" ∧
    (getOkD (_create_and_attach_dataset (fun p => p)
        ⟨fun _ => true, fun p => p = joinPath "root" "checker",
          fun _ => ["a.in", "a.ans"]⟩ "root"
        [("task_type", .vStr "Batch")] taskDefault).2
        datasetDefault).task_type_parameters
      = some (.vList [.vStr "alone", .vList [.vStr "", .vStr ""],
          .vStr (if (⟨fun _ => true, fun p => p = joinPath "root" "checker",
            fun _ => ["a.in", "a.ans"]⟩ : Fs).pathExists
              (joinPath "root" "checker") then "comparator" else "diff")]) :=
  ⟨rfl,
    (C5_batch_checker_parameters (fun p => p)
      ⟨fun _ => true, fun p => p = joinPath "root" "checker",
        fun _ => ["a.in", "a.ans"]⟩ "root"
      [("task_type", .vStr "Batch")] taskDefault rfl
      (by decide) (by decide) (by decide) (by decide) rfl).2.1⟩

/-- C10: whenever a root-level `manager` file exists and the dataset phase
succeeds, `_create_and_attach_dataset` chmods it, stores it in the blob
store and registers it under the `'manager'` key of the managers mapping —
with no condition on the task type (the `paramsOk` hypothesis only rules
out a Communication descriptor missing its required keys). -/
theorem C10_manager_stored_any_task_type (fc : Fc) (fs : Fs)
    (selfPath : String) (cfg : Config) (task : Task)
    (hm : fs.pathExists (joinPath selfPath "manager") = true)
    (hp : paramsOk cfg = true)
    (hb : ∀ f ∈ fs.listdir (joinPath selfPath "tests"), basename f = f)
    (he : ∀ f ∈ fs.listdir (joinPath selfPath "tests"),
      (splitext f).2 = ".in" ∨ (splitext f).2 = ".ans")
    (hc : ∀ f ∈ fs.listdir (joinPath selfPath "tests"),
      ((splitext f).1 ++ ".in") ∈ fs.listdir (joinPath selfPath "tests") ∧
      ((splitext f).1 ++ ".ans") ∈ fs.listdir (joinPath selfPath "tests"))
    (hl : fs.listdir (joinPath selfPath "tests") ≠ [])
    (htl : exceptOk (pyFloat (cfgGet cfg "time_limit" (.vInt 3))) = true) :
    exceptOk (_create_and_attach_dataset fc fs selfPath cfg task).2 = true ∧
    FsEvent.chmod (joinPath selfPath "manager")
      ∈ (_create_and_attach_dataset fc fs selfPath cfg task).1 ∧
    FsEvent.put (joinPath selfPath "manager")
        ("Manager for Task: " ++ task.name.pyStr)
      ∈ (_create_and_attach_dataset fc fs selfPath cfg task).1 ∧
    ((getOkD (_create_and_attach_dataset fc fs selfPath cfg task).2
      datasetDefault).managers.lookup "manager"
      = some ⟨"manager", fc (joinPath selfPath "manager")⟩) := by
  obtain ⟨m, hbb, hchar, hnd⟩ :=
    buildBases_spec (fs.listdir (joinPath selfPath "tests")) hb he
  have hcomplete := entries_complete _ m he hc hchar hnd
  have hne := scanned_ne_nil _ m he hchar hl
  obtain ⟨tl, htl'⟩ : ∃ tl, pyFloat (cfgGet cfg "time_limit" (.vInt 3))
      = .ok tl := by
    cases hx : pyFloat (cfgGet cfg "time_limit" (.vInt 3)) with
    | error e => rw [hx] at htl; simp [exceptOk] at htl
    | ok v => exact ⟨v, rfl⟩
  obtain ⟨params, hpp⟩ := datasetParams_ok cfg
    (checker_step fc fs selfPath task.name.pyStr).2.2 hp
  have hres := createDataset_eq fc fs selfPath cfg task m tl params hbb
    hcomplete hne hpp htl'
  rw [hres]
  refine ⟨rfl, ?_, ?_, ?_⟩
  · simp [manager_step, hm]
  · simp [manager_step, hm]
  · cases hcp : fs.pathExists (joinPath selfPath "checker") <;>
      simp [getOkD, checker_step, manager_step, hm, hcp, List.lookup_cons,
        beq_eq_false_iff_ne.mpr (by decide : ("manager" : String) ≠ "checker")]

/-- C10 witness: a Batch-typed descriptor with a root `manager` file — the
interactor is stored even for the non-interactive task type. -/
theorem C10_witness :
    (⟨fun _ => true, fun p => p = joinPath "root" "manager",
      fun _ => ["a.in", "a.ans"]⟩ : Fs).pathExists (joinPath "root" "manager")
      = true ∧
    paramsOk [("task_type", PyVal.vStr "Batch")] = true ∧
    ((getOkD (_create_and_attach_dataset (fun p => p)
        ⟨fun _ => true, fun p => p = joinPath "root" "manager",
          fun _ => ["a.in", "a.ans"]⟩ "root"
        [("task_type", .vStr "Batch")] taskDefault).2
        datasetDefault).managers.lookup "manager"
      = some ⟨"manager", (fun p => p) (joinPath "root" "manager")⟩) :=
  ⟨by decide, rfl,
    (C10_manager_stored_any_task_type (fun p => p)
      ⟨fun _ => true, fun p => p = joinPath "root" "manager",
        fun _ => ["a.in", "a.ans"]⟩ "root"
      [("task_type", .vStr "Batch")] taskDefault (by decide) rfl
      (by decide) (by decide) (by decide) (by decide) rfl).2.2.2⟩

/-- Under extension validity, a stem's slot is populated exactly when the
corresponding file is listed. -/
theorem hasStemExt_iff_mem_in (l : List String) (s : String)
    (he : ∀ f ∈ l, (splitext f).2 = ".in" ∨ (splitext f).2 = ".ans") :
    hasStemExt l s ".in" ↔ (s ++ ".in") ∈ l := by
  constructor
  · rintro ⟨f, hf, hsp⟩
    rw [← eq_of_splitext f s ".in" hsp]
    exact hf
  · exact hasStemExt_of_mem_in l s he

theorem hasStemExt_iff_mem_ans (l : List String) (s : String)
    (he : ∀ f ∈ l, (splitext f).2 = ".in" ∨ (splitext f).2 = ".ans") :
    hasStemExt l s ".ans" ↔ (s ++ ".ans") ∈ l := by
  constructor
  · rintro ⟨f, hf, hsp⟩
    rw [← eq_of_splitext f s ".ans" hsp]
    exact hf
  · exact hasStemExt_of_mem_ans l s he

/-- C3: when at least one stem of the tests directory lacks its input or
its output file, `_create_and_attach_dataset` fails with the single
bad-I/O error, and the stem list carried by that error holds exactly the
incomplete stems — all of them, not only the first. -/
theorem C3_bad_io_lists_all_incomplete (fc : Fc) (fs : Fs)
    (selfPath : String) (cfg : Config) (task : Task)
    (hb : ∀ f ∈ fs.listdir (joinPath selfPath "tests"), basename f = f)
    (he : ∀ f ∈ fs.listdir (joinPath selfPath "tests"),
      (splitext f).2 = ".in" ∨ (splitext f).2 = ".ans")
    (hp : paramsOk cfg = true)
    (hbad : ∃ f ∈ fs.listdir (joinPath selfPath "tests"),
      ¬(((splitext f).1 ++ ".in") ∈ fs.listdir (joinPath selfPath "tests") ∧
        ((splitext f).1 ++ ".ans") ∈ fs.listdir (joinPath selfPath "tests"))) :
    isBadIoErr (_create_and_attach_dataset fc fs selfPath cfg task).2 = true ∧
    (errBadIo (_create_and_attach_dataset fc fs selfPath cfg task).2).toFinset
      = (((fs.listdir (joinPath selfPath "tests")).map
            (fun f => (splitext f).1)).filter
          (fun s => !(decide ((s ++ ".in") ∈ fs.listdir (joinPath selfPath "tests"))
            && decide ((s ++ ".ans") ∈ fs.listdir (joinPath selfPath "tests"))))).toFinset := by
  set l := fs.listdir (joinPath selfPath "tests") with hldef
  obtain ⟨m, hbb, hchar, hnd⟩ := buildBases_spec l hb he
  obtain ⟨params, hpp⟩ := datasetParams_ok cfg
    (checker_step fc fs selfPath task.name.pyStr).2.2 hp
  -- the entry of each stem is truthy-complete exactly when both files exist
  have hentry : ∀ s p, m.lookup s = some p →
      ((optTruthy p.input && optTruthy p.output) = true ↔
        ((s ++ ".in") ∈ l ∧ (s ++ ".ans") ∈ l)) := by
    intro s p hlk
    rw [hchar s] at hlk
    unfold canonPair at hlk
    by_cases hcond : hasStemExt l s ".in" ∨ hasStemExt l s ".ans" ∨
        (none : Option IOPair).isSome
    · rw [if_pos hcond] at hlk
      have hp' : p = ⟨if hasStemExt l s ".in" then some (s ++ ".in") else none,
          if hasStemExt l s ".ans" then some (s ++ ".ans") else none⟩ := by
        simp at hlk
        simp [← hlk]
      rw [hp']
      by_cases h4 : hasStemExt l s ".in" <;> by_cases h5 : hasStemExt l s ".ans"
      · simp [h4, h5, optTruthy, append_in_ne_empty s, append_ans_ne_empty s]
        exact ⟨(hasStemExt_iff_mem_in l s he).mp h4,
          (hasStemExt_iff_mem_ans l s he).mp h5⟩
      · simp only [h4, h5, if_true, if_false, if_pos, if_neg, not_false_iff]
        simp [optTruthy, append_in_ne_empty s]
        intro hin
        exact fun hans => h5 (hasStemExt_of_mem_ans l s he hans)
      · simp only [h4, h5]
        simp [optTruthy]
        intro hin
        exact absurd (hasStemExt_of_mem_in l s he hin) h4
      · simp only [h4, h5]
        simp [optTruthy]
        intro hin
        exact absurd (hasStemExt_of_mem_in l s he hin) h4
    · rw [if_neg hcond] at hlk
      simp at hlk
  -- the bad-I/O list is nonempty
  obtain ⟨f₀, hf₀, hinc⟩ := hbad
  have hkey : hasStemExt l (splitext f₀).1 ".in" ∨
      hasStemExt l (splitext f₀).1 ".ans" ∨ (none : Option IOPair).isSome := by
    rcases he f₀ hf₀ with h' | h'
    · exact Or.inl ⟨f₀, hf₀, by rw [← h']⟩
    · exact Or.inr (Or.inl ⟨f₀, hf₀, by rw [← h']⟩)
  obtain ⟨p₀, hp₀⟩ : ∃ p, m.lookup (splitext f₀).1 = some p := by
    rw [hchar]
    unfold canonPair
    rw [if_pos hkey]
    exact ⟨_, rfl⟩
  have hbadp₀ : (optTruthy p₀.input && optTruthy p₀.output) = false := by
    rw [← Bool.not_eq_true]
    intro hco
    exact hinc ((hentry _ _ hp₀).mp hco)
  have hmem₀ : ((splitext f₀).1, p₀) ∈ m := (mem_iff_lookup m hnd _ _).mpr hp₀
  have hbadne : (m.filter
      (fun kp => !(optTruthy kp.2.input && optTruthy kp.2.output))).map Prod.fst
      ≠ [] := by
    intro hnil
    have : ((splitext f₀).1, p₀) ∈ m.filter
        (fun kp => !(optTruthy kp.2.input && optTruthy kp.2.output)) :=
      List.mem_filter.mpr ⟨hmem₀, by simp [hbadp₀]⟩
    rw [List.map_eq_nil_iff.mp hnil] at this
    simp at this
  -- the run fails with exactly the bad-I/O list
  have hrun : (_create_and_attach_dataset fc fs selfPath cfg task).2
      = .error (.badIo ((m.filter
          (fun kp => !(optTruthy kp.2.input && optTruthy kp.2.output))).map
            Prod.fst)) := by
    have hbe : ((m.filter
        (fun kp => !(optTruthy kp.2.input && optTruthy kp.2.output))).map
          Prod.fst).isEmpty = false := by
      cases hx : (m.filter
          (fun kp => !(optTruthy kp.2.input && optTruthy kp.2.output))).map
            Prod.fst with
      | nil => exact absurd hx hbadne
      | cons a t => rfl
    simp only [_create_and_attach_dataset, hpp, ← hldef, hbb, hbe]
    simp
  rw [hrun]
  refine ⟨rfl, ?_⟩
  apply Finset.ext
  intro s
  simp only [List.mem_toFinset, errBadIo, List.mem_map, List.mem_filter]
  constructor
  · rintro ⟨⟨s', p⟩, ⟨hmem, hpred⟩, hfst⟩
    subst hfst
    have hlk := (mem_iff_lookup m hnd _ _).mp hmem
    have hnotc : ¬ (((s', p).1 ++ ".in") ∈ l ∧ ((s', p).1 ++ ".ans") ∈ l) := by
      intro hco
      have := (hentry _ _ hlk).mpr hco
      rw [this] at hpred
      simp at hpred
    have hstem : ∃ f ∈ l, (splitext f).1 = (s', p).1 := by
      have hksome : (m.lookup (s', p).1).isSome := by rw [hlk]; rfl
      rw [hchar] at hksome
      unfold canonPair at hksome
      by_cases hcond : hasStemExt l (s', p).1 ".in" ∨
          hasStemExt l (s', p).1 ".ans" ∨ (none : Option IOPair).isSome
      · rcases hcond with h4 | h4 | h4
        · obtain ⟨f, hf, hsp⟩ := h4
          exact ⟨f, hf, by rw [hsp]⟩
        · obtain ⟨f, hf, hsp⟩ := h4
          exact ⟨f, hf, by rw [hsp]⟩
        · simp at h4
      · rw [if_neg hcond] at hksome
        simp at hksome
    refine ⟨hstem, ?_⟩
    rcases not_and_or.mp hnotc with h | h <;> simp [h]
  · rintro ⟨⟨f, hf, hstem⟩, hq⟩
    have hnotc' : ¬ ((s ++ ".in") ∈ l ∧ (s ++ ".ans") ∈ l) := by
      intro hco
      simp [hco.1, hco.2] at hq
    have hkey' : hasStemExt l s ".in" ∨ hasStemExt l s ".ans" ∨
        (none : Option IOPair).isSome := by
      rcases he f hf with h' | h'
      · exact Or.inl ⟨f, hf, by rw [← h', ← hstem]⟩
      · exact Or.inr (Or.inl ⟨f, hf, by rw [← h', ← hstem]⟩)
    obtain ⟨p, hp'⟩ : ∃ p, m.lookup s = some p := by
      rw [hchar]
      unfold canonPair
      rw [if_pos hkey']
      exact ⟨_, rfl⟩
    refine ⟨(s, p), ⟨(mem_iff_lookup m hnd _ _).mpr hp', ?_⟩, rfl⟩
    have hfalse : (optTruthy p.input && optTruthy p.output) = false := by
      rw [← Bool.not_eq_true]
      intro hco
      exact hnotc' ((hentry _ _ hp').mp hco)
    simp [hfalse]

/-- The testcase loop keys its output by the (already sorted) stems. -/
theorem loadTestcases_keys (fc : Fc) (tp n : String) :
    ∀ xs : List (String × IOPair),
      (loadTestcases fc tp n xs).2.map Prod.fst = xs.map Prod.fst
  | [] => rfl
  | (base, p) :: rest => by
    simp [loadTestcases, loadTestcases_keys fc tp n rest]

/-- Every produced `Testcase` carries its stem as codename and is marked
public. -/
theorem loadTestcases_entries (fc : Fc) (tp n : String) :
    ∀ xs : List (String × IOPair),
      (loadTestcases fc tp n xs).2.all
        (fun kp => (kp.2.codename == kp.1) && kp.2.pub) = true
  | [] => rfl
  | (base, p) :: rest => by
    simp [loadTestcases, loadTestcases_entries fc tp n rest]

/-- `hasStemExt` only depends on the file set. -/
theorem hasStemExt_perm (l₁ l₂ : List String) (hp : List.Perm l₁ l₂)
    (s e : String) : hasStemExt l₁ s e ↔ hasStemExt l₂ s e := by
  unfold hasStemExt
  constructor
  · rintro ⟨f, hf, hsp⟩
    exact ⟨f, hp.subset hf, hsp⟩
  · rintro ⟨f, hf, hsp⟩
    exact ⟨f, hp.symm.subset hf, hsp⟩

/-- The checker step only reads `os.path.exists`. -/
theorem checker_step_congr (fc : Fc) (fs fs₂ : Fs) (sp n : String)
    (h : fs₂.pathExists = fs.pathExists) :
    checker_step fc fs₂ sp n = checker_step fc fs sp n := by
  simp only [checker_step, h]

theorem manager_step_congr (fc : Fc) (fs fs₂ : Fs) (sp n : String)
    (h : fs₂.pathExists = fs.pathExists) :
    manager_step fc fs₂ sp n = manager_step fc fs sp n := by
  simp only [manager_step, h]

/-- C3 witness: stems `b` (missing `.ans`) and `c` (missing `.in`) are
both listed in the single bad-I/O error. -/
theorem C3_witness :
    (∃ f ∈ (⟨fun _ => true, fun _ => false,
        fun _ => ["a.in", "b.in", "a.ans", "c.ans"]⟩ : Fs).listdir
          (joinPath "root" "tests"),
      ¬(((splitext f).1 ++ ".in") ∈ (⟨fun _ => true, fun _ => false,
          fun _ => ["a.in", "b.in", "a.ans", "c.ans"]⟩ : Fs).listdir
            (joinPath "root" "tests") ∧
        ((splitext f).1 ++ ".ans") ∈ (⟨fun _ => true, fun _ => false,
          fun _ => ["a.in", "b.in", "a.ans", "c.ans"]⟩ : Fs).listdir
            (joinPath "root" "tests"))) ∧
    isBadIoErr (_create_and_attach_dataset (fun p => p)
      ⟨fun _ => true, fun _ => false,
        fun _ => ["a.in", "b.in", "a.ans", "c.ans"]⟩ "root" [] taskDefault).2
      = true ∧
    errBadIo (_create_and_attach_dataset (fun p => p)
      ⟨fun _ => true, fun _ => false,
        fun _ => ["a.in", "b.in", "a.ans", "c.ans"]⟩ "root" [] taskDefault).2
      = ["b", "c"] :=
  ⟨by decide,
    (C3_bad_io_lists_all_incomplete (fun p => p)
      ⟨fun _ => true, fun _ => false,
        fun _ => ["a.in", "b.in", "a.ans", "c.ans"]⟩ "root" [] taskDefault
      (by decide) (by decide) rfl (by decide)).1,
    rfl⟩

/-- C1 counterexample: the empty tests directory satisfies the claim's
premises vacuously (every file is `.in`/`.ans`, every stem complete, with
N = 0 distinct stems), yet `_create_and_attach_dataset` raises the
empty-test-set error instead of building a Dataset with 0 testcases. -/
theorem C1_counterexample :
    _create_and_attach_dataset (fun p => p)
      ⟨fun _ => true, fun _ => false, fun _ => []⟩ "root" [] taskDefault
      = ([], .error .emptyTests) := rfl

/-- C1 (amended: at least one test file): for a valid nonempty tests
directory, `_create_and_attach_dataset` builds a Dataset whose testcases
are keyed exactly by the N distinct stems, in strictly increasing
lexicographic order, each `Testcase` carrying its stem as codename; and
the whole result is unchanged when the filesystem enumerates the
directory in any other order. -/
theorem C1_testcases_sorted_complete (fc : Fc) (fs fs₂ : Fs)
    (selfPath : String) (cfg : Config) (task : Task)
    (hfs₂p : fs₂.pathExists = fs.pathExists)
    (hfs₂l : List.Perm (fs₂.listdir (joinPath selfPath "tests"))
      (fs.listdir (joinPath selfPath "tests")))
    (hb : ∀ f ∈ fs.listdir (joinPath selfPath "tests"), basename f = f)
    (hb₂ : ∀ f ∈ fs₂.listdir (joinPath selfPath "tests"), basename f = f)
    (he : ∀ f ∈ fs.listdir (joinPath selfPath "tests"),
      (splitext f).2 = ".in" ∨ (splitext f).2 = ".ans")
    (hc : ∀ f ∈ fs.listdir (joinPath selfPath "tests"),
      ((splitext f).1 ++ ".in") ∈ fs.listdir (joinPath selfPath "tests") ∧
      ((splitext f).1 ++ ".ans") ∈ fs.listdir (joinPath selfPath "tests"))
    (hl : fs.listdir (joinPath selfPath "tests") ≠ [])
    (hp : paramsOk cfg = true)
    (htl : exceptOk (pyFloat (cfgGet cfg "time_limit" (.vInt 3))) = true) :
    exceptOk (_create_and_attach_dataset fc fs selfPath cfg task).2 = true ∧
    ((getOkD (_create_and_attach_dataset fc fs selfPath cfg task).2
      datasetDefault).testcases.map Prod.fst).Pairwise
        (fun a b => strLt a b = true) ∧
    ((getOkD (_create_and_attach_dataset fc fs selfPath cfg task).2
      datasetDefault).testcases.map Prod.fst).toFinset
      = ((fs.listdir (joinPath selfPath "tests")).map
          (fun f => (splitext f).1)).toFinset ∧
    ((getOkD (_create_and_attach_dataset fc fs selfPath cfg task).2
      datasetDefault).testcases.map Prod.fst).length
      = ((fs.listdir (joinPath selfPath "tests")).map
          (fun f => (splitext f).1)).dedup.length ∧
    (getOkD (_create_and_attach_dataset fc fs selfPath cfg task).2
      datasetDefault).testcases.all
        (fun kp => (kp.2.codename == kp.1) && kp.2.pub) = true ∧
    _create_and_attach_dataset fc fs₂ selfPath cfg task
      = _create_and_attach_dataset fc fs selfPath cfg task := by
  obtain ⟨m, hbb, hchar, hnd⟩ :=
    buildBases_spec (fs.listdir (joinPath selfPath "tests")) hb he
  have hcomplete := entries_complete _ m he hc hchar hnd
  have hne := scanned_ne_nil _ m he hchar hl
  obtain ⟨tl, htl'⟩ : ∃ tl, pyFloat (cfgGet cfg "time_limit" (.vInt 3))
      = .ok tl := by
    cases hx : pyFloat (cfgGet cfg "time_limit" (.vInt 3)) with
    | error e => rw [hx] at htl; simp [exceptOk] at htl
    | ok v => exact ⟨v, rfl⟩
  obtain ⟨params, hpp⟩ := datasetParams_ok cfg
    (checker_step fc fs selfPath task.name.pyStr).2.2 hp
  have hres := createDataset_eq fc fs selfPath cfg task m tl params hbb
    hcomplete hne hpp htl'
  -- keys of the produced testcases
  have hkeys : (getOkD (_create_and_attach_dataset fc fs selfPath cfg task).2
      datasetDefault).testcases.map Prod.fst
      = (sortBy stemLe m).map Prod.fst := by
    rw [hres]
    simp [getOkD, loadTestcases_keys]
  have hsortnd : ((sortBy stemLe m).map Prod.fst).Nodup :=
    (((sortBy_perm stemLe m).map Prod.fst).nodup_iff).mpr hnd
  have hmemkeys : ∀ s, s ∈ (sortBy stemLe m).map Prod.fst ↔
      ∃ f ∈ fs.listdir (joinPath selfPath "tests"), (splitext f).1 = s := by
    intro s
    rw [← keys_iff_stem _ m he hchar s]
    exact ((sortBy_perm stemLe m).map Prod.fst).mem_iff
  refine ⟨by rw [hres]; rfl, ?_, ?_, ?_, ?_, ?_⟩
  · rw [hkeys]
    have hsorted := sortBy_sorted stemLe stemLe_trans stemLe_total m
    have hstrict := hsorted.and (List.pairwise_map.mp hsortnd)
    apply List.pairwise_map.mpr
    apply hstrict.imp
    intro a b hab
    simp only [strLt, Bool.and_eq_true, Bool.not_eq_true', beq_eq_false_iff_ne]
    exact ⟨hab.1, hab.2⟩
  · rw [hkeys]
    apply Finset.ext
    intro a
    simp only [List.mem_toFinset, List.mem_map]
    rw [← List.mem_map (f := Prod.fst)]
    exact (hmemkeys a).trans (by simp)
  · rw [hkeys]
    have h1 : ((sortBy stemLe m).map Prod.fst).length
        = ((sortBy stemLe m).map Prod.fst).toFinset.card :=
      (List.toFinset_card_of_nodup hsortnd).symm
    have h2 : ((fs.listdir (joinPath selfPath "tests")).map
        (fun f => (splitext f).1)).dedup.length
        = ((fs.listdir (joinPath selfPath "tests")).map
          (fun f => (splitext f).1)).dedup.toFinset.card :=
      (List.toFinset_card_of_nodup (List.nodup_dedup _)).symm
    rw [h1, h2]
    congr 1
    apply Finset.ext
    intro a
    simp only [List.mem_toFinset, List.mem_dedup, List.mem_map]
    rw [← List.mem_map (f := Prod.fst)]
    exact (hmemkeys a).trans (by simp)
  · rw [hres]
    simp [getOkD, loadTestcases_entries]
  · -- order independence
    have hb₂' := hb₂
    have he₂ : ∀ f ∈ fs₂.listdir (joinPath selfPath "tests"),
        (splitext f).2 = ".in" ∨ (splitext f).2 = ".ans" :=
      fun f hf => he f (hfs₂l.subset hf)
    obtain ⟨m₂, hbb₂, hchar₂, hnd₂⟩ :=
      buildBases_spec (fs₂.listdir (joinPath selfPath "tests")) hb₂' he₂
    have hlook : ∀ s, m₂.lookup s = m.lookup s := by
      intro s
      rw [hchar₂ s, hchar s]
      exact canonPair_congr _ _ _ _ s
        (hasStemExt_perm _ _ hfs₂l s ".in")
        (hasStemExt_perm _ _ hfs₂l s ".ans") rfl
    have hcomplete₂ : ∀ kp ∈ m₂,
        (optTruthy kp.2.input && optTruthy kp.2.output) = true := by
      rintro ⟨s, p⟩ hm
      have := (mem_iff_lookup m₂ hnd₂ s p).mp hm
      rw [hlook s] at this
      exact hcomplete (s, p) ((mem_iff_lookup m hnd s p).mpr this)
    have hne₂ : m₂ ≠ [] := by
      intro hnil
      apply hne
      cases hm : m with
      | nil => rfl
      | cons kp rest =>
        obtain ⟨s, p⟩ := kp
        have : m.lookup s = some p := by
          rw [hm]
          exact List.lookup_cons_self
        rw [← hlook s, hnil] at this
        simp at this
    have hpp₂ : datasetParams cfg
        (checker_step fc fs₂ selfPath task.name.pyStr).2.2 = .ok params := by
      rw [checker_step_congr fc fs fs₂ selfPath task.name.pyStr hfs₂p]
      exact hpp
    have hres₂ := createDataset_eq fc fs₂ selfPath cfg task m₂ tl params hbb₂
      hcomplete₂ hne₂ hpp₂ htl'
    rw [hres, hres₂,
      checker_step_congr fc fs fs₂ selfPath task.name.pyStr hfs₂p,
      manager_step_congr fc fs fs₂ selfPath task.name.pyStr hfs₂p,
      sortBy_eq_of_lookup_eq m₂ m hnd₂ hnd hlook]

/-- C1 witness: two stems enumerated out of order produce the sorted
two-testcase dataset, and a differently-ordered enumeration of the same
files produces the identical result. -/
theorem C1_witness :
    List.Perm ((⟨fun _ => true, fun _ => false,
        fun _ => ["b.ans", "a.in", "a.ans", "b.in"]⟩ : Fs).listdir
          (joinPath "root" "tests"))
      ((⟨fun _ => true, fun _ => false,
        fun _ => ["b.in", "a.ans", "a.in", "b.ans"]⟩ : Fs).listdir
          (joinPath "root" "tests")) ∧
    ((getOkD (_create_and_attach_dataset (fun p => p)
        ⟨fun _ => true, fun _ => false,
          fun _ => ["b.in", "a.ans", "a.in", "b.ans"]⟩ "root" [] taskDefault).2
        datasetDefault).testcases.map Prod.fst = ["a", "b"]) ∧
    _create_and_attach_dataset (fun p => p)
        ⟨fun _ => true, fun _ => false,
          fun _ => ["b.ans", "a.in", "a.ans", "b.in"]⟩ "root" [] taskDefault
      = _create_and_attach_dataset (fun p => p)
        ⟨fun _ => true, fun _ => false,
          fun _ => ["b.in", "a.ans", "a.in", "b.ans"]⟩ "root" [] taskDefault :=
  ⟨by decide, rfl,
    (C1_testcases_sorted_complete (fun p => p)
      ⟨fun _ => true, fun _ => false,
        fun _ => ["b.in", "a.ans", "a.in", "b.ans"]⟩
      ⟨fun _ => true, fun _ => false,
        fun _ => ["b.ans", "a.in", "a.ans", "b.in"]⟩
      "root" [] taskDefault rfl (by decide) (by decide) (by decide)
      (by decide) (by decide) (by decide) rfl rfl).2.2.2.2.2⟩

/-- A successful scan only ever saw `.in`/`.ans` files. -/
theorem buildBases_ok_exts : ∀ (l : List String)
    (acc m : List (String × IOPair)), buildBases l acc = .ok m →
    ∀ f ∈ l, (splitext (basename f)).2 = ".in" ∨
      (splitext (basename f)).2 = ".ans"
  | [], _, _, _ => by simp
  | f :: rest, acc, m, h => by
    intro g hg
    simp only [buildBases] at h
    by_cases h1 : (splitext (basename f)).2 = ".in"
    · rw [if_pos h1] at h
      rcases List.mem_cons.mp hg with rfl | hg'
      · exact Or.inl h1
      · exact buildBases_ok_exts rest _ m h g hg'
    · by_cases h2 : (splitext (basename f)).2 = ".ans"
      · rw [if_neg h1, if_pos h2] at h
        rcases List.mem_cons.mp hg with rfl | hg'
        · exact Or.inr h2
        · exact buildBases_ok_exts rest _ m h g hg'
      · rw [if_neg h1, if_neg h2] at h
        exact absurd h (by simp)

/-- Inversion of a successful dataset build: the scan succeeded on a
complete, nonempty map, parameters resolved, and the time limit coerced. -/
theorem createDataset_ok_inv (fc : Fc) (fs : Fs) (selfPath : String)
    (cfg : Config) (task : Task) (tr : List FsEvent) (d : Dataset)
    (h : _create_and_attach_dataset fc fs selfPath cfg task = (tr, .ok d)) :
    ∃ m params tl,
      buildBases (fs.listdir (joinPath selfPath "tests")) [] = .ok m ∧
      datasetParams cfg (checker_step fc fs selfPath task.name.pyStr).2.2
        = .ok params ∧
      pyFloat (cfgGet cfg "time_limit" (.vInt 3)) = .ok tl ∧
      (∀ kp ∈ m, (optTruthy kp.2.input && optTruthy kp.2.output) = true) ∧
      m ≠ [] := by
  simp only [_create_and_attach_dataset] at h
  cases hP : datasetParams cfg
      (checker_step fc fs selfPath task.name.pyStr).2.2 with
  | error e => rw [hP] at h; simp at h
  | ok params =>
    rw [hP] at h
    dsimp only at h
    cases hB : buildBases (fs.listdir (joinPath selfPath "tests")) [] with
    | error e => rw [hB] at h; simp at h
    | ok m =>
      rw [hB] at h
      dsimp only at h
      cases hbi : ((m.filter (fun kp =>
          !(optTruthy kp.2.input && optTruthy kp.2.output))).map
            Prod.fst).isEmpty with
      | false => rw [hbi] at h; simp at h
      | true =>
        rw [hbi] at h
        cases hme : m.isEmpty with
        | true => rw [hme] at h; simp at h
        | false =>
          rw [hme] at h
          cases hF : pyFloat (cfgGet cfg "time_limit" (.vInt 3)) with
          | error e => rw [hF] at h; simp at h
          | ok tl =>
            refine ⟨m, params, tl, rfl, rfl, rfl, ?_, ?_⟩
            · intro kp hkp
              have hnil : m.filter (fun kp =>
                  !(optTruthy kp.2.input && optTruthy kp.2.output)) = [] :=
                List.map_eq_nil_iff.mp (List.isEmpty_iff.mp hbi)
              have := List.filter_eq_nil_iff.mp hnil kp hkp
              simpa using this
            · intro hnil
              rw [hnil] at hme
              simp at hme

/-- The attachments loop only reads `os.path.isfile`. -/
theorem loadAttachments_congr (fc : Fc) (fs fs₂ : Fs) (sp n : String)
    (hif : fs₂.isFile = fs.isFile) :
    ∀ (items : List PyVal) (acc : List (String × Attachment)),
      loadAttachments fc fs₂ sp n items acc
        = loadAttachments fc fs sp n items acc
  | [], _ => rfl
  | a :: rest, acc => by
    cases a with
    | vStr att =>
      simp only [loadAttachments, hif,
        loadAttachments_congr fc fs fs₂ sp n hif rest]
    | vNone => rfl
    | vBool b => rfl
    | vInt nn => rfl
    | vFloat q => rfl
    | vList ll => rfl
    | vDatetime q => rfl
    | vTimedelta q => rfl

/-- `_get_task` only reads `os.path.isfile` from the filesystem. -/
theorem _get_task_congr (fc : Fc) (fs fs₂ : Fs) (sp : String) (cfg : Config)
    (gs : Bool) (hif : fs₂.isFile = fs.isFile) :
    _get_task fc fs₂ sp cfg gs = _get_task fc fs sp cfg gs := by
  have hla := loadAttachments_congr fc fs fs₂ sp
    (cfgGet cfg "name" .vNone).pyStr hif
  simp only [_get_task, hif, hla]

/-- C2: on the same unchanged directory — same file contents (hence the
same content-addressed digests), same file-existence answers, directory
enumerations equal up to order — a second run of `get_task` produces the
identical trace, `Task` and `Dataset` as the first successful run. -/
theorem C2_get_task_deterministic (fc : Fc) (fs₁ fs₂ : Fs)
    (selfPath : String) (cfg : Config) (gs : Bool) (tr : List FsEvent)
    (td : Task × Dataset)
    (hif : fs₂.isFile = fs₁.isFile)
    (hpe : fs₂.pathExists = fs₁.pathExists)
    (hld : ∀ p, List.Perm (fs₂.listdir p) (fs₁.listdir p))
    (hb₁ : ∀ f ∈ fs₁.listdir (joinPath selfPath "tests"), basename f = f)
    (hb₂ : ∀ f ∈ fs₂.listdir (joinPath selfPath "tests"), basename f = f)
    (h1 : get_task fc fs₁ selfPath cfg gs = (tr, .ok td)) :
    get_task fc fs₂ selfPath cfg gs = (tr, .ok td) := by
  simp only [get_task] at h1 ⊢
  rw [_get_task_congr fc fs₁ fs₂ selfPath cfg gs hif]
  cases hA : _get_task fc fs₁ selfPath cfg gs with
  | mk tr₁ r₁ =>
    rw [hA] at h1
    cases r₁ with
    | error e => simp at h1
    | ok task =>
      dsimp only at h1 ⊢
      cases hB : _create_and_attach_dataset fc fs₁ selfPath cfg task with
      | mk tr₂ r₂ =>
        rw [hB] at h1
        cases r₂ with
        | error e => simp at h1
        | ok d =>
          dsimp only at h1
          obtain ⟨m, params, tl, hbb₁, hpp₁, htl₁, hcomp₁, hne₁⟩ :=
            createDataset_ok_inv fc fs₁ selfPath cfg task tr₂ d hB
          have he₁ : ∀ f ∈ fs₁.listdir (joinPath selfPath "tests"),
              (splitext f).2 = ".in" ∨ (splitext f).2 = ".ans" := by
            intro f hf
            have := buildBases_ok_exts _ _ _ hbb₁ f hf
            rwa [hb₁ f hf] at this
          obtain ⟨m', hbb', hchar₁, hnd₁⟩ :=
            buildBases_spec (fs₁.listdir (joinPath selfPath "tests")) hb₁ he₁
          rw [hbb₁] at hbb'
          have hmm' : m' = m := by
            injection hbb' with hh
            exact hh.symm
          subst hmm'
          -- second scan
          have he₂ : ∀ f ∈ fs₂.listdir (joinPath selfPath "tests"),
              (splitext f).2 = ".in" ∨ (splitext f).2 = ".ans" :=
            fun f hf => he₁ f ((hld (joinPath selfPath "tests")).subset hf)
          obtain ⟨m₂, hbb₂, hchar₂, hnd₂⟩ :=
            buildBases_spec (fs₂.listdir (joinPath selfPath "tests")) hb₂ he₂
          have hlook : ∀ s, m₂.lookup s = m'.lookup s := by
            intro s
            rw [hchar₂ s, hchar₁ s]
            exact canonPair_congr _ _ _ _ s
              (hasStemExt_perm _ _ (hld (joinPath selfPath "tests")) s ".in")
              (hasStemExt_perm _ _ (hld (joinPath selfPath "tests")) s ".ans")
              rfl
          have hcomp₂ : ∀ kp ∈ m₂,
              (optTruthy kp.2.input && optTruthy kp.2.output) = true := by
            rintro ⟨s2, p2⟩ hm2
            have := (mem_iff_lookup m₂ hnd₂ s2 p2).mp hm2
            rw [hlook s2] at this
            exact hcomp₁ (s2, p2) ((mem_iff_lookup m' hnd₁ s2 p2).mpr this)
          have hne₂ : m₂ ≠ [] := by
            intro hnil
            apply hne₁
            cases hm : m' with
            | nil => rfl
            | cons kp rest =>
              obtain ⟨s2, p2⟩ := kp
              have : m'.lookup s2 = some p2 := by
                rw [hm]
                exact List.lookup_cons_self
              rw [← hlook s2, hnil] at this
              simp at this
          have hpp₂ : datasetParams cfg
              (checker_step fc fs₂ selfPath task.name.pyStr).2.2
              = .ok params := by
            rw [checker_step_congr fc fs₁ fs₂ selfPath task.name.pyStr hpe]
            exact hpp₁
          have hres₁ := createDataset_eq fc fs₁ selfPath cfg task m' tl
            params hbb₁ hcomp₁ hne₁ hpp₁ htl₁
          have hres₂ := createDataset_eq fc fs₂ selfPath cfg task m₂ tl
            params hbb₂ hcomp₂ hne₂ hpp₂ htl₁
          have hsame : _create_and_attach_dataset fc fs₂ selfPath cfg task
              = (tr₂, .ok d) := by
            rw [hres₂,
              checker_step_congr fc fs₁ fs₂ selfPath task.name.pyStr hpe,
              manager_step_congr fc fs₁ fs₂ selfPath task.name.pyStr hpe,
              sortBy_eq_of_lookup_eq m₂ m' hnd₂ hnd₁ hlook, ← hres₁]
            exact hB
          rw [hsame]
          dsimp only
          exact h1

/-- C2 witness: the same one-stem task directory enumerated in two
different orders produces identical `get_task` results. -/
theorem C2_witness :
    (∀ p, List.Perm ((⟨fun _ => true, fun _ => false,
        fun _ => ["a.ans", "a.in"]⟩ : Fs).listdir p)
      ((⟨fun _ => true, fun _ => false,
        fun _ => ["a.in", "a.ans"]⟩ : Fs).listdir p)) ∧
    get_task (fun p => p)
      ⟨fun _ => true, fun _ => false, fun _ => ["a.ans", "a.in"]⟩ "root"
      [("name", .vStr "t"), ("statement", .vStr "st"),
        ("task_type", .vStr "Batch")] true
      = ((get_task (fun p => p)
          ⟨fun _ => true, fun _ => false, fun _ => ["a.in", "a.ans"]⟩ "root"
          [("name", .vStr "t"), ("statement", .vStr "st"),
            ("task_type", .vStr "Batch")] true).1,
        .ok (getOkD (get_task (fun p => p)
          ⟨fun _ => true, fun _ => false, fun _ => ["a.in", "a.ans"]⟩ "root"
          [("name", .vStr "t"), ("statement", .vStr "st"),
            ("task_type", .vStr "Batch")] true).2
          (taskDefault, datasetDefault))) :=
  ⟨fun p => by
      exact (by decide : List.Perm ["a.ans", "a.in"] ["a.in", "a.ans"]),
    C2_get_task_deterministic (fun p => p)
      ⟨fun _ => true, fun _ => false, fun _ => ["a.in", "a.ans"]⟩
      ⟨fun _ => true, fun _ => false, fun _ => ["a.ans", "a.in"]⟩
      "root"
      [("name", .vStr "t"), ("statement", .vStr "st"),
        ("task_type", .vStr "Batch")] true _ _
      rfl rfl (fun p => by
        exact (by decide : List.Perm ["a.ans", "a.in"] ["a.in", "a.ans"]))
      (by decide) (by decide) rfl⟩

end KG
